import Mathlib

/-! # Lexer engine of `asciigoat.org/core/lexer`

A shallow embedding of `lexer/token.go` and `lexer/lexer.go`.

Modelling conventions:

* In the engine a Go `int` is an `Int`: the cursor and the position of an engine
  stay far from the bounds of `int`. The methods of the exported type
  `TokenPosition`, which a caller can apply to any position, are given on the `int`
  of 64 bits as well, where a sum wraps (`StepInt64`, `NewLineInt64`).
* A rune is a `Char`: the feeder decodes its input, so the runes it buffers are
  Unicode scalar values, on which Go's `string([]rune)` conversion is `String.mk`.
* A value of the Go interface `error` is an `Option GoError`, nil being `none`; a
  `GoError` is an error that is not nil.
* A run-time panic is the result `none`.
* The output channel is the list of tokens sent on it so far, oldest first. A send
  appends to the list. The channel is closed only by the deferred `close` of `Run`,
  so it is open in every state an engine operation is called on; the blocking of a
  send on a full channel belongs to the concurrent consumer and is not modelled.
* `fmt.Sprintf` applied to caller-supplied arguments is a parameter `sprintf`.
-/

namespace Lexer

/-! ## Errors -/

/-- A rune of the input. -/
abbrev Rune := Char

/-- The non-nil values of Go's `error` interface that the engine meets: `io.EOF`,
the result of `errors.New`, and any other error, known by its message. -/
inductive GoError where
  | EOF
  | New (s : String)
  | Other (msg : String)
  deriving DecidableEq, Repr

/-- The method `Error()` of an error value. -/
def GoError.Error : GoError → String
  | .EOF => "EOF"
  | .New s => s
  | .Other msg => msg

/-- Go `error`: an error value, or nil (`none`). -/
abbrev error := Option GoError

/-! ## token.go -/

/-- Go `type TokenType int`. -/
abbrev TokenType := Int

/-- Go `TokenError TokenType = iota`, the first constant of its block. -/
def TokenError : TokenType := 0

/-- Go `type TokenPosition struct { Line int; Row int }`. -/
structure TokenPosition where
  Line : Int
  Row : Int
  deriving DecidableEq, Repr

/-- Go `func (pos *TokenPosition) Reset()`. -/
def TokenPosition.Reset (_pos : TokenPosition) : TokenPosition :=
  { Line := 1, Row := 1 }

/-- Go `func (pos *TokenPosition) Step(n int)` on a position away from the bounds of
`int`, as the position of an engine is: the sum is exact. `StepInt64` is the method
on any position. -/
def TokenPosition.Step (pos : TokenPosition) (n : Int) : TokenPosition :=
  { pos with Row := pos.Row + n }

/-- Go `func (pos *TokenPosition) NewLine()` on a position away from the bounds of
`int`, as the position of an engine is: the sum is exact. `NewLineInt64` is the
method on any position. -/
def TokenPosition.NewLine (pos : TokenPosition) : TokenPosition :=
  { Line := pos.Line + 1, Row := 1 }

/-- The greatest `int` of 64 bits. -/
def MaxInt : Int := 9223372036854775807

/-- The least `int` of 64 bits. -/
def MinInt : Int := -9223372036854775808

/-- The value an `int` of 64 bits holds when the exact result of an operation on
`int`s is `x`: `x` wrapped into the range from `MinInt` to `MaxInt`. -/
def wrapInt (x : Int) : Int :=
  (x + 9223372036854775808) % 18446744073709551616 - 9223372036854775808

/-- Go `func (pos *TokenPosition) Step(n int)` on the `int` of 64 bits: `pos.Row += n`
wraps. -/
def TokenPosition.StepInt64 (pos : TokenPosition) (n : Int) : TokenPosition :=
  { pos with Row := wrapInt (pos.Row + n) }

/-- Go `func (pos *TokenPosition) NewLine()` on the `int` of 64 bits: `pos.Line += 1`
wraps. -/
def TokenPosition.NewLineInt64 (pos : TokenPosition) : TokenPosition :=
  { Line := wrapInt (pos.Line + 1), Row := 1 }

/-- Go `type token struct { typ TokenType; pos TokenPosition; val string }`. -/
structure token where
  typ : TokenType
  pos : TokenPosition
  val : String
  deriving DecidableEq, Repr

/-- Go `type errorToken struct { token; err error }`. -/
structure errorToken where
  tok : token
  err : GoError
  deriving DecidableEq, Repr

/-- Go `type SyntaxErrorToken struct { ErrorToken; Cursor int; Buffer string }`. -/
structure SyntaxErrorToken where
  ErrorToken : errorToken
  Cursor : Int
  Buffer : String
  deriving DecidableEq, Repr

/-- The values of the interface `Token` built by this package: `*token`,
`*errorToken` and `*SyntaxErrorToken`. -/
inductive Token where
  | plain (t : token)
  | error (t : errorToken)
  | syntaxError (t : SyntaxErrorToken)
  deriving DecidableEq, Repr

/-- Go `func (t token) Type() TokenType`. -/
def token.Type (t : token) : TokenType := t.typ

/-- Go `func (t token) Position() TokenPosition`. -/
def token.Position (t : token) : TokenPosition := t.pos

/-- Go `func (t token) String() string`. -/
def token.String (t : token) : String := t.val

/-- Go `func NewToken(typ TokenType, val []rune, pos TokenPosition) Token`. -/
def NewToken (typ : TokenType) (val : List Rune) (pos : TokenPosition) : Token :=
  .plain { typ := typ, val := String.mk val, pos := pos }

/-- Go `func NewErrorToken(err error, pos TokenPosition) ErrorToken`, for an `err`
that is not nil. On a nil `err` the call `err.Error()` in it panics; `lexer.EmitError`,
the one caller that passes an error it was given, accounts for that. -/
def NewErrorToken (err : GoError) (pos : TokenPosition) : errorToken :=
  { tok := { typ := TokenError, val := err.Error, pos := pos }, err := err }

/-- Go `func (t errorToken) Error() string`. -/
def errorToken.Error (t : errorToken) : String := t.err.Error

/-- Go `func (t errorToken) Unwrap() error`. -/
def errorToken.Unwrap (t : errorToken) : GoError := t.err

/-- The verb `%v` of `fmt` applied to an `int`: its decimal digits, after a minus
sign when it is negative. -/
def fmtInt (i : Int) : String := toString i

/-- The value of a decimal digit, `none` for any other character. -/
def digitValue (c : Char) : Option Nat :=
  if '0'.toNat ≤ c.toNat ∧ c.toNat ≤ '9'.toNat then some (c.toNat - '0'.toNat) else none

/-- The number that decimal digits write after the number `acc` written so far,
the most significant digit first; `none` when a character is no digit. -/
def decimalValue : List Char → Nat → Option Nat
  | [], acc => some acc
  | c :: cs, acc => (digitValue c).bind fun d => decimalValue cs (10 * acc + d)

/-- The characters are the decimal numeral of `n`: at least one digit, the digits
write `n` in base ten, and there is no leading zero, `0` being written `0`. -/
def IsNumeralOf (cs : List Char) (n : Nat) : Prop :=
  cs ≠ [] ∧ decimalValue cs 0 = some n ∧ (n = 0 → cs = ['0']) ∧
    (n ≠ 0 → cs.head? ≠ some '0')

/-- The string writes the integer `i` in decimal: the numeral of `i` when `i` is not
negative, and a minus sign followed by the numeral of `-i` when it is. -/
def IsDecimalOf (s : String) (i : Int) : Prop :=
  (0 ≤ i → IsNumeralOf s.data i.toNat) ∧
  (i < 0 → ∃ cs, s.data = '-' :: cs ∧ IsNumeralOf cs (-i).toNat)

/-- Go `func NewSyntaxErrorToken(msg string, pos TokenPosition, cur int, buffer []rune)
*SyntaxErrorToken`. The two `fmt.Sprintf` calls have fixed formats,
`"Syntax Error at %v.%v+%v"` and `"%s: %s"`, and are written out. -/
def NewSyntaxErrorToken (msg : String) (pos : TokenPosition) (cur : Int)
    (buffer : List Rune) : SyntaxErrorToken :=
  let s := "Syntax Error at " ++ fmtInt pos.Line ++ "." ++ fmtInt pos.Row ++ "+" ++ fmtInt cur
  let s := if msg.utf8ByteSize > 0 then s ++ ": " ++ msg else s
  { ErrorToken := NewErrorToken (.New s) pos, Cursor := cur, Buffer := String.mk buffer }

/-- The method `Type()` of a `Token` value; an `errorToken` and a
`SyntaxErrorToken` get it from the `token` they embed. -/
def Token.Type : Token → TokenType
  | .plain t => t.Type
  | .error t => t.tok.Type
  | .syntaxError t => t.ErrorToken.tok.Type

/-- The method `Position()` of a `Token` value. -/
def Token.Position : Token → TokenPosition
  | .plain t => t.Position
  | .error t => t.tok.Position
  | .syntaxError t => t.ErrorToken.tok.Position

/-- The method `Error()` of a `Token` value that is an `ErrorToken`; a plain token
has no such method. -/
def Token.Error : Token → Option String
  | .plain _ => none
  | .error t => some t.Error
  | .syntaxError t => some t.ErrorToken.Error

/-- The method `Unwrap()` of a `Token` value that is an `ErrorToken`. -/
def Token.Unwrap : Token → Option GoError
  | .plain _ => none
  | .error t => some t.Unwrap
  | .syntaxError t => some t.ErrorToken.Unwrap

/-- The method `String()` of a `Token` value. -/
def Token.String : Token → String
  | .plain t => t.String
  | .error t => t.tok.String
  | .syntaxError t => t.ErrorToken.tok.String

/-! ## The feeder -/

/-- Modelled from the spec: the rune feeder `runes.Feeder` of the package
`asciigoat.org/core/runes`, whose source is not at hand. `out` holds the runes
buffered and not yet discarded, `src` the runes the underlying stream has still to
deliver, and `err` the error the stream reports once it has delivered them all
(end-of-stream, or an I/O failure). -/
structure Feeder where
  out : List Rune
  src : List Rune
  err : GoError
  deriving DecidableEq, Repr

/-- Modelled from the spec: `buffered_runes()`, the method `Runes()` of the
feeder: the current buffer contents, with no side effect. -/
def Feeder.Runes (f : Feeder) : List Rune := f.out

/-- Modelled from the spec: `discard(n)`, the method `Skip(n)` of the feeder:
removes the first `n` runes from the buffer permanently. -/
def Feeder.Skip (f : Feeder) (n : Int) : Feeder :=
  { f with out := f.out.drop n.toNat }

/-- Modelled from the spec: `ensure_at_least(n)`, the method `AtLeast(n)` of the
feeder: buffers runes of the stream until at least `n` are buffered, if available;
returns all currently buffered runes, fewer than `n` when the stream ends before,
and then the error of the stream. -/
def Feeder.AtLeast (f : Feeder) (n : Int) : (List Rune × Option GoError) × Feeder :=
  let need := n.toNat - f.out.length
  if need ≤ f.src.length then
    let g : Feeder := { f with out := f.out ++ f.src.take need, src := f.src.drop need }
    ((g.out, none), g)
  else
    let g : Feeder := { f with out := f.out ++ f.src, src := [] }
    ((g.out, some f.err), g)

/-! ## lexer.go -/

/-- The slice expression `s[:n]`, which panics unless `0 ≤ n ≤ cap(s)`. The buffer
the feeder exposes is taken to have no capacity beyond its length. -/
def sliceTo {α : Type} (s : List α) (n : Int) : Option (List α) :=
  if 0 ≤ n ∧ n ≤ s.length then some (s.take n.toNat) else none

/-- The slice expression `s[n:]`, which panics unless `0 ≤ n ≤ len(s)`. -/
def sliceFrom {α : Type} (s : List α) (n : Int) : Option (List α) :=
  if 0 ≤ n ∧ n ≤ s.length then some (s.drop n.toNat) else none

/-- The fields of `type lexer struct` that change during a run: the feeder `in`,
the position `pos`, the look ahead pointer `cursor`, and the channel `tokens`, as
the list of the tokens sent on it so far. The field `start` is set once by
`NewLexer` and read once by `Run`; it is kept in `Engine`, because a state
function takes the lexer as its argument. -/
structure lexer where
  in_ : Feeder
  pos : TokenPosition
  cursor : Int
  tokens : List Token
  deriving DecidableEq, Repr

/-- Go `type StateFn func(Lexer) StateFn`: a state function works on the lexer through
its methods and returns the next state function, or nil (`none`); it panics
(`none`) when one of the methods it calls does. -/
inductive StateFn where
  | mk (fn : lexer → Option (lexer × Option StateFn))

/-- Calls a state function on the lexer. -/
def StateFn.call : StateFn → lexer → Option (lexer × Option StateFn)
  | .mk fn => fn

/-- Go `type lexer struct` as a whole: the initial state `start`, nil when `none`, and
the fields that change. -/
structure Engine where
  start : Option StateFn
  lex : lexer

/-- Go `func NewLexer(start StateFn, in *runes.Feeder, tokens int) Lexer`; making a
channel of negative capacity panics. -/
def NewLexer (start : Option StateFn) (in_ : Feeder) (tokens : Int) : Option Engine :=
  if tokens < 0 then none
  else some { start := start,
              lex := { in_ := in_, pos := { Line := 1, Row := 1 }, cursor := 0, tokens := [] } }

/-- Go `func (lex *lexer) AtLeast(n int) ([]rune, error)`. -/
def lexer.AtLeast (lex : lexer) (n : Int) : Option ((List Rune × Option GoError) × lexer) :=
  let min := if n > 0 then lex.cursor + n else lex.cursor
  let r := lex.in_.AtLeast min
  let lex1 : lexer := { lex with in_ := r.2 }
  if (r.1.1.length : Int) > lex.cursor then
    (sliceFrom r.1.1 lex.cursor).map fun s => ((s, r.1.2), lex1)
  else
    some (([], r.1.2), lex1)

/-- Go `func (lex *lexer) Position() TokenPosition`. -/
def lexer.Position (lex : lexer) : TokenPosition := lex.pos

/-- Go `func (lex *lexer) Step(n int)`. -/
def lexer.Step (lex : lexer) (n : Int) : lexer :=
  { lex with cursor := lex.cursor + n }

/-- Go `func (lex *lexer) NewLine()`. -/
def lexer.NewLine (lex : lexer) : lexer :=
  { lex with pos := lex.pos.NewLine }

/-- Go `func (lex *lexer) Tokens() <-chan Token`. -/
def lexer.Tokens (lex : lexer) : List Token := lex.tokens

/-- Go `func (lex *lexer) Emit(typ TokenType)`. -/
def lexer.Emit (lex : lexer) (typ : TokenType) : Option lexer :=
  let pos := lex.pos
  let n := lex.cursor
  if n > 0 then
    (sliceTo lex.in_.Runes n).map fun text =>
      { in_ := lex.in_.Skip n, pos := lex.pos.Step n, cursor := 0,
        tokens := lex.tokens ++ [NewToken typ text pos] }
  else
    some { lex with tokens := lex.tokens ++ [NewToken typ [] pos] }

/-- Go `func (lex *lexer) EmitError(err error)`. The argument of the send,
`NewErrorToken(err, lex.pos)`, is evaluated first and panics on a nil `err`, so that
nothing is sent then. -/
def lexer.EmitError (lex : lexer) (err : error) : Option lexer :=
  match err with
  | none => none
  | some e => some { lex with tokens := lex.tokens ++ [.error (NewErrorToken e lex.pos)] }

/-- Go `func (lex *lexer) EmitErrorf(s string, args ...interface{})`. -/
def lexer.EmitErrorf {α : Type} (sprintf : String → List α → String) (lex : lexer)
    (s : String) (args : List α) : lexer :=
  let s := if args.length > 0 then sprintf s args else s
  { lex with tokens := lex.tokens ++ [.error (NewErrorToken (.New s) lex.pos)] }

/-- Go `func (lex *lexer) EmitSyntaxError(s string, args ...interface{})`. -/
def lexer.EmitSyntaxError {α : Type} (sprintf : String → List α → String) (lex : lexer)
    (s : String) (args : List α) : lexer :=
  let s := if args.length > 0 then sprintf s args else s
  { lex with tokens := lex.tokens ++
      [.syntaxError (NewSyntaxErrorToken s lex.pos lex.cursor lex.in_.Runes)] }

/-- What a run of the state machine comes to. -/
inductive Outcome where
  | done (lex : lexer)
  | panicked
  | outOfFuel

/-- The loop `for state := lex.start; state != nil; { state = state(lex) }` of
`Run`, making at most `fuel` calls. -/
def trampoline : Nat → Option StateFn → lexer → Outcome
  | _, none, lex => .done lex
  | 0, some _, _ => .outOfFuel
  | fuel + 1, some state, lex =>
    match state.call lex with
    | none => .panicked
    | some (lex1, next) => trampoline fuel next lex1

/-- The output stream as its consumer sees it when the run is over: the tokens in
the order they were sent, and whether the channel has been closed. -/
structure Stream where
  tokens : List Token
  closed : Bool
  deriving DecidableEq, Repr

/-- Go `func (lex *lexer) Run()`: the loop, then the deferred `close(lex.tokens)`.
The result is `none` when the loop panics or is still running after `fuel` calls. -/
def Engine.Run (fuel : Nat) (e : Engine) : Option Stream :=
  match trampoline fuel e.start e.lex with
  | .done lex => some { tokens := lex.tokens, closed := true }
  | _ => none

/-! ## Scripts used by the statements -/

/-- The calls `Step(n1), Step(n2), ..., Step(nk)`, in this order. -/
def steps (lex : lexer) (ns : List Int) : lexer :=
  ns.foldl lexer.Step lex

/-- A token type of a grammar, distinct from the reserved `TokenError`. -/
def WORD : TokenType := 1

/-- A feeder over the input `"ab\ncd"` with its first `k` runes buffered and the
stream ending after the input. -/
def feederAbCd (k : Nat) : Feeder :=
  { out := "ab\ncd".data.take k, src := "ab\ncd".data.drop k, err := .EOF }

/-- An engine state at position `{1,1}` with cursor 0 and nothing sent, over the
buffered runes of `s`. -/
def freshOver (s : String) : lexer :=
  { in_ := { out := s.data, src := [], err := .EOF }, pos := { Line := 1, Row := 1 },
    cursor := 0, tokens := [] }

/-- The state function of the example: `Step(2)`, `Emit(WORD)`, `NewLine()`,
`Step(2)`, `Emit(WORD)`, return nil. -/
def wordsState : StateFn :=
  .mk fun lex =>
    ((lex.Step 2).Emit WORD).bind fun lex1 =>
      (((lex1.NewLine).Step 2).Emit WORD).bind fun lex2 =>
        some (lex2, none)

/-- A feeder with nothing buffered over a stream that has ended. -/
def feederAtEnd : Feeder :=
  { out := [], src := [], err := .EOF }

/-- The state function of the end-of-input example: `AtLeast(n)`, whose results it
drops, then `EmitErrorf("unexpected end of input")`, return nil. -/
def endOfInputState {α : Type} (sprintf : String → List α → String) (n : Int) : StateFn :=
  .mk fun lex =>
    (lex.AtLeast n).bind fun r =>
      some (r.2.EmitErrorf sprintf "unexpected end of input" [], none)

/-- A call of one method of the interface `Lexer` by a state function, with its
arguments; `Run` is left out, the driver calls it. -/
inductive Op (α : Type) where
  | AtLeast (n : Int)
  | Step (n : Int)
  | NewLine
  | Emit (typ : TokenType)
  | EmitError (err : error)
  | EmitErrorf (s : String) (args : List α)
  | EmitSyntaxError (s : String) (args : List α)
  | Position
  | Tokens

/-- The engine state after one call, `none` when the call panics. The results that
`AtLeast`, `Position` and `Tokens` hand to the state function are dropped. -/
def Op.run {α : Type} (sprintf : String → List α → String) : Op α → lexer → Option lexer
  | .AtLeast n, lex => (lex.AtLeast n).map fun r => r.2
  | .Step n, lex => some (lex.Step n)
  | .NewLine, lex => some lex.NewLine
  | .Emit typ, lex => lex.Emit typ
  | .EmitError err, lex => lex.EmitError err
  | .EmitErrorf s args, lex => some (lex.EmitErrorf sprintf s args)
  | .EmitSyntaxError s args, lex => some (lex.EmitSyntaxError sprintf s args)
  | .Position, lex => some lex
  | .Tokens, lex => some lex

/-- The engine state after a sequence of calls made one after the other, `none`
when one of them panics. -/
def runOps {α : Type} (sprintf : String → List α → String) : List (Op α) → lexer → Option lexer
  | [], lex => some lex
  | op :: ops, lex => (op.run sprintf lex).bind (runOps sprintf ops)

/-- Whether a call is one of `Emit`, `EmitError`, `EmitErrorf`, `EmitSyntaxError`. -/
def Op.isEmit {α : Type} : Op α → Bool
  | .Emit _ => true
  | .EmitError _ => true
  | .EmitErrorf _ _ => true
  | .EmitSyntaxError _ _ => true
  | _ => false

/-- Whether a call has what it needs: a cursor at most the number of buffered
runes for `Emit`, a cursor at least 0 for `AtLeast`, an error that is not nil for
`EmitError`; the other calls need nothing. -/
def Op.cursorOk {α : Type} : Op α → lexer → Bool
  | .Emit _, lex => decide (lex.cursor ≤ lex.in_.Runes.length)
  | .AtLeast _, lex => decide (0 ≤ lex.cursor)
  | .EmitError err, _ => err.isSome
  | _, _ => true

/-- Whether, along a sequence of calls, each call has what it needs at the moment
it is made. -/
def cursorInRange {α : Type} (sprintf : String → List α → String) :
    List (Op α) → lexer → Bool
  | [], _ => true
  | op :: ops, lex =>
    op.cursorOk lex &&
      match op.run sprintf lex with
      | some lex1 => cursorInRange sprintf ops lex1
      | none => true

/-- The tokens that the calls of a sequence send, each taken from the end of the
channel right after its call, in the order of the calls. -/
def callTokens {α : Type} (sprintf : String → List α → String) :
    List (Op α) → lexer → List Token
  | [], _ => []
  | op :: ops, lex =>
    match op.run sprintf lex with
    | none => []
    | some lex1 =>
      (if op.isEmit then lex1.tokens.getLast?.toList else []) ++ callTokens sprintf ops lex1

/-- The order of positions: by line first, then by column. -/
def TokenPosition.le (a b : TokenPosition) : Prop :=
  a.Line < b.Line ∨ (a.Line = b.Line ∧ a.Row ≤ b.Row)

instance (a b : TokenPosition) : Decidable (a.le b) := by
  unfold TokenPosition.le
  infer_instance

/-- A format function for the examples, which leaves the arguments out. -/
def sprintfPlain (s : String) (_args : List Unit) : String := s

/-- The chain of state functions started at `start` on the state `lex` reaches nil
after `k` invocations, each made on the state the one before left, and leaves the
state `lex1`. -/
inductive Reaches : Nat → Option StateFn → lexer → lexer → Prop where
  | done (lex : lexer) : Reaches 0 none lex lex
  | call (k : Nat) (state : StateFn) (next : Option StateFn) (lex lex1 lex2 : lexer)
      (h : state.call lex = some (lex1, next)) (rest : Reaches k next lex1 lex2) :
      Reaches (k + 1) (some state) lex lex2

/-- A state function that sends one error token and returns nil. -/
def reportState : StateFn :=
  .mk fun lex => (lex.EmitError (some (.Other "stop"))).map fun lex1 => (lex1, none)

/-- A state function that commits two runes as a `WORD` and hands over to
`reportState`. -/
def wordThenReport : StateFn :=
  .mk fun lex =>
    ((lex.Step 2).Emit WORD).bind fun lex1 => some (lex1, some reportState)

/-- A script for the examples: look ahead, commit `"ab"`, commit the newline rune,
move to the next line, report an error, commit `"cd"`. -/
def linesScript : List (Op Unit) :=
  [Op.AtLeast 5, Op.Step 2, Op.Emit WORD, Op.Step 1, Op.Emit WORD, Op.NewLine,
    Op.EmitError (some GoError.EOF), Op.Step 2, Op.Emit WORD]

/-- The state of a new engine over the input `"ab\ncd"`, nothing of it buffered
yet. -/
def newOverAbCd : lexer :=
  { in_ := feederAbCd 0, pos := { Line := 1, Row := 1 }, cursor := 0, tokens := [] }

/-- Whether a call is a `Step` or an `Emit`. -/
def Op.isStepOrEmit {α : Type} : Op α → Bool
  | .Step _ => true
  | .Emit _ => true
  | _ => false

/-- The runes of the texts of the tokens, one text after the other. -/
def texts (toks : List Token) : List Rune :=
  (toks.map fun tok => tok.String.data).flatten

/-- Whether the cursor lies within the runes the feeder has buffered. -/
def lexer.cursorWithin (lex : lexer) : Bool :=
  decide (0 ≤ lex.cursor ∧ lex.cursor ≤ lex.in_.Runes.length)

/-- Whether a call keeps to what the engine leaves to the state function: a
`Step(n)` leaves the cursor within the runes the feeder has buffered, and
`EmitError` is given an error that is not nil. -/
def Op.disciplined {α : Type} : Op α → lexer → Bool
  | .Step n, lex => decide (0 ≤ lex.cursor + n ∧ lex.cursor + n ≤ lex.in_.Runes.length)
  | .EmitError err, _ => err.isSome
  | _, _ => true

/-- Whether every call of a sequence is disciplined at the moment it is made. -/
def disciplined {α : Type} (sprintf : String → List α → String) :
    List (Op α) → lexer → Bool
  | [], _ => true
  | op :: ops, lex =>
    op.disciplined lex &&
      match op.run sprintf lex with
      | some lex1 => disciplined sprintf ops lex1
      | none => true

/-- A script for the examples that looks ahead before it steps. -/
def lookAheadScript : List (Op Unit) :=
  [Op.AtLeast 2, Op.Step 2, Op.Emit WORD, Op.EmitSyntaxError "bad" [], Op.NewLine,
    Op.AtLeast 9, Op.Step 3, Op.Step (-1), Op.Emit WORD, Op.EmitError (some GoError.EOF)]

/-! ## Theorems -/

theorem steps_cursor (ns : List Int) (lex : lexer) :
    (steps lex ns).cursor = lex.cursor + ns.sum := by
  induction ns generalizing lex with
  | nil => simp [steps]
  | cons n ns ih =>
    have h := ih (lex.Step n)
    simp only [steps, List.foldl_cons, List.sum_cons] at h ⊢
    rw [h]
    simp only [lexer.Step]
    ring

theorem steps_frame (ns : List Int) (lex : lexer) :
    (steps lex ns).pos = lex.pos ∧ (steps lex ns).in_ = lex.in_ ∧
      (steps lex ns).tokens = lex.tokens := by
  induction ns generalizing lex with
  | nil => simp [steps]
  | cons n ns ih =>
    have h := ih (lex.Step n)
    simp only [steps, List.foldl_cons] at h ⊢
    simpa [lexer.Step] using h

theorem Emit_of_pos (lex : lexer) (t : TokenType) (h0 : 0 < lex.cursor)
    (hc : lex.cursor ≤ lex.in_.Runes.length) :
    lex.Emit t = some
      { in_ := lex.in_.Skip lex.cursor, pos := lex.pos.Step lex.cursor, cursor := 0,
        tokens := lex.tokens ++
          [NewToken t (lex.in_.Runes.take lex.cursor.toNat) lex.pos] } := by
  have h1 : 0 ≤ lex.cursor := le_of_lt h0
  simp [lexer.Emit, sliceTo, h0, h1, hc]

theorem Emit_of_nonpos (lex : lexer) (t : TokenType) (h0 : lex.cursor ≤ 0) :
    lex.Emit t = some { lex with tokens := lex.tokens ++ [NewToken t [] lex.pos] } := by
  have h1 : ¬ lex.cursor > 0 := not_lt.mpr h0
  simp [lexer.Emit, h1]

theorem trampoline_none (fuel : Nat) (lex : lexer) :
    trampoline fuel none lex = .done lex := by
  cases fuel <;> rfl

theorem trampoline_succ (fuel : Nat) (state : StateFn) (lex : lexer) :
    trampoline (fuel + 1) (some state) lex =
      match state.call lex with
      | none => .panicked
      | some (lex1, next) => trampoline fuel next lex1 := rfl

theorem wordsState_next (lex : lexer) (r : lexer × Option StateFn)
    (h : wordsState.call lex = some r) : r.2 = none := by
  simp only [wordsState, StateFn.call, Option.bind_eq_some] at h
  obtain ⟨_, _, _, _, h2⟩ := h
  cases h2
  rfl

theorem Run_wordsState (fuel : Nat) (lex : lexer) :
    Engine.Run (fuel + 1) { start := some wordsState, lex := lex } =
      (wordsState.call lex).map fun r => { tokens := r.1.tokens, closed := true } := by
  unfold Engine.Run
  simp only [trampoline_succ]
  cases h : wordsState.call lex with
  | none => rfl
  | some r =>
    obtain ⟨lex1, next⟩ := r
    have hn : next = none := wordsState_next lex (lex1, next) h
    subst hn
    simp [trampoline_none]

theorem feederAbCd_whole (k : Nat) (h : 5 ≤ k) : feederAbCd k = feederAbCd 5 := by
  have hl : "ab\ncd".data.length = 5 := by decide
  have h1 : "ab\ncd".data.take k = "ab\ncd".data := List.take_of_length_le (by omega)
  have h2 : "ab\ncd".data.drop k = [] := List.drop_of_length_le (by omega)
  have h3 : "ab\ncd".data.take 5 = "ab\ncd".data := List.take_of_length_le (by omega)
  have h4 : "ab\ncd".data.drop 5 = [] := List.drop_of_length_le (by omega)
  simp only [feederAbCd, h1, h2, h3, h4]

theorem utf8ByteSize_pos_iff (msg : String) : msg.utf8ByteSize > 0 ↔ msg ≠ "" := by
  obtain ⟨cs⟩ := msg
  cases cs with
  | nil => simp [String.utf8ByteSize, String.utf8ByteSize.go]
  | cons c cs =>
    have hc : 0 < c.utf8Size := Char.utf8Size_pos c
    have hne : (String.mk (c :: cs)) ≠ "" := by
      intro h
      have := congrArg String.data h
      simp at this
    simp only [String.utf8ByteSize, String.utf8ByteSize.go, gt_iff_lt, ne_eq, hne,
      not_false_eq_true, iff_true]
    omega

theorem NewSyntaxErrorToken_of_msg (msg : String) (pos : TokenPosition) (cur : Int)
    (buffer : List Rune) (h : msg ≠ "") :
    NewSyntaxErrorToken msg pos cur buffer =
      { ErrorToken := NewErrorToken
          (.New ("Syntax Error at " ++ fmtInt pos.Line ++ "." ++ fmtInt pos.Row ++ "+" ++
                  fmtInt cur ++ ": " ++ msg)) pos,
        Cursor := cur, Buffer := String.mk buffer } := by
  have hb : msg.utf8ByteSize > 0 := (utf8ByteSize_pos_iff msg).mpr h
  simp only [NewSyntaxErrorToken, hb, if_true]

theorem NewSyntaxErrorToken_of_empty (pos : TokenPosition) (cur : Int)
    (buffer : List Rune) :
    NewSyntaxErrorToken "" pos cur buffer =
      { ErrorToken := NewErrorToken
          (.New ("Syntax Error at " ++ fmtInt pos.Line ++ "." ++ fmtInt pos.Row ++ "+" ++
                  fmtInt cur)) pos,
        Cursor := cur, Buffer := String.mk buffer } := by
  have hb : ¬ ("".utf8ByteSize > 0) := by decide
  simp only [NewSyntaxErrorToken, hb, if_false]

theorem AtLeast_of_nonneg (lex : lexer) (n : Int) (h0 : 0 ≤ lex.cursor) :
    lex.AtLeast n =
      some ((if lex.cursor < ((lex.in_.AtLeast (lex.cursor + max n 0)).1.1.length : Int)
              then (lex.in_.AtLeast (lex.cursor + max n 0)).1.1.drop lex.cursor.toNat
              else [],
             (lex.in_.AtLeast (lex.cursor + max n 0)).1.2),
            { lex with in_ := (lex.in_.AtLeast (lex.cursor + max n 0)).2 }) := by
  have hmin : (if n > 0 then lex.cursor + n else lex.cursor) = lex.cursor + max n 0 := by
    by_cases hn : n > 0
    · rw [if_pos hn, max_eq_left (le_of_lt hn)]
    · rw [if_neg hn, max_eq_right (not_lt.mp hn), add_zero]
  unfold lexer.AtLeast
  simp only [hmin]
  by_cases hlen : lex.cursor < ((lex.in_.AtLeast (lex.cursor + max n 0)).1.1.length : Int)
  · have hle : lex.cursor ≤ ((lex.in_.AtLeast (lex.cursor + max n 0)).1.1.length : Int) :=
      le_of_lt hlen
    simp [sliceFrom, hlen, hle, h0]
  · simp [hlen]

theorem Run_single (fuel : Nat) (state : StateFn) (lex lex1 : lexer)
    (h : state.call lex = some (lex1, none)) :
    Engine.Run (fuel + 1) { start := some state, lex := lex } =
      some { tokens := lex1.tokens, closed := true } := by
  unfold Engine.Run
  simp only [trampoline_succ, h, trampoline_none]

theorem EmitError_some_cases (lex lex1 : lexer) (err : error)
    (h : lex.EmitError err = some lex1) :
    ∃ e, err = some e ∧
      lex1 = { lex with tokens := lex.tokens ++ [.error (NewErrorToken e lex.pos)] } := by
  cases err with
  | none => simp [lexer.EmitError] at h
  | some e =>
    simp only [lexer.EmitError, Option.some.injEq] at h
    exact ⟨e, rfl, h.symm⟩

theorem digitValue_digitChar (d : Nat) (h : d < 10) : digitValue (Nat.digitChar d) = some d := by
  interval_cases d <;> rfl

theorem digitChar_ne_zero (d : Nat) (h : d < 10) (h0 : d ≠ 0) : Nat.digitChar d ≠ '0' := by
  interval_cases d <;> first | exact absurd rfl h0 | decide

theorem decimalValue_append (a b : List Char) (acc : Nat) :
    decimalValue (a ++ b) acc = (decimalValue a acc).bind (decimalValue b) := by
  induction a generalizing acc with
  | nil => rfl
  | cons c cs ih =>
    simp only [List.cons_append, decimalValue]
    cases digitValue c with
    | none => rfl
    | some d => simp [ih]

theorem toDigitsCore_numeral (fuel n : Nat) (ds : List Char) (h : n < fuel) :
    ∃ l, Nat.toDigitsCore 10 fuel n ds = l ++ ds ∧ IsNumeralOf l n := by
  induction fuel generalizing n ds with
  | zero => omega
  | succ fuel ih =>
    simp only [Nat.toDigitsCore]
    have hmod : n % 10 < 10 := Nat.mod_lt _ (by decide)
    by_cases hq : n / 10 = 0
    · have hn : n < 10 := by omega
      have hm : n % 10 = n := Nat.mod_eq_of_lt hn
      refine ⟨[Nat.digitChar (n % 10)], by simp [hq], by simp, ?_, ?_, ?_⟩
      · rw [hm]
        simp [decimalValue, digitValue_digitChar n hn]
      · intro h0
        subst h0
        rfl
      · intro h0
        rw [hm]
        simpa using digitChar_ne_zero n hn h0
    · have hlt : n / 10 < fuel := by omega
      obtain ⟨l, hl, hne, hval, _, hhead⟩ := ih (n / 10) (Nat.digitChar (n % 10) :: ds) hlt
      refine ⟨l ++ [Nat.digitChar (n % 10)], by simp [hq, hl], by simp, ?_, ?_, ?_⟩
      · rw [decimalValue_append, hval]
        simp only [Option.some_bind, decimalValue, digitValue_digitChar _ hmod]
        simp only [Option.some.injEq]
        omega
      · intro h0
        omega
      · intro _
        cases l with
        | nil => exact absurd rfl hne
        | cons c cs =>
          have := hhead hq
          simpa using this

theorem Nat_repr_numeral (n : Nat) : IsNumeralOf (Nat.repr n).data n := by
  obtain ⟨l, hl, hnum⟩ := toDigitsCore_numeral (n + 1) n [] (Nat.lt_succ_self n)
  have : (Nat.repr n).data = l := by
    simp [Nat.repr, Nat.toDigits, hl, List.asString]
  rw [this]
  exact hnum

theorem fmtInt_decimal (i : Int) : IsDecimalOf (fmtInt i) i := by
  cases i with
  | ofNat m =>
    refine ⟨fun _ => ?_, fun h => ?_⟩
    · exact Nat_repr_numeral m
    · exact absurd h (by simp)
  | negSucc m =>
    refine ⟨fun h => ?_, fun _ => ⟨(Nat.repr (m + 1)).data, ?_, ?_⟩⟩
    · exact absurd h (by simp [Int.negSucc_lt_zero])
    · rfl
    · have : (-Int.negSucc m).toNat = m + 1 := by
        simp [Int.neg_negSucc]
      rw [this]
      exact Nat_repr_numeral (m + 1)

/-- C1: from a state with position `p`, cursor `c` with `0 < c ≤ len b` over the
feeder buffer `b`, `Emit(t)` returns, having sent exactly one token, of type `t`,
with text the first `c` runes of `b` and position `p`; afterwards the position is
`{p.Line, p.Row + c}`, the cursor is 0 and the buffer is `b` without its first `c`
runes. -/
theorem Emit_postcondition (lex : lexer) (t : TokenType) (h0 : 0 < lex.cursor)
    (hc : lex.cursor ≤ lex.in_.Runes.length) :
    ∃ lex1 tok, lex.Emit t = some lex1 ∧
      lex1.tokens = lex.tokens ++ [tok] ∧
      tok = .plain { typ := t, pos := lex.pos,
                     val := String.mk (lex.in_.Runes.take lex.cursor.toNat) } ∧
      tok.Type = t ∧
      tok.String.data = lex.in_.Runes.take lex.cursor.toNat ∧
      tok.Position = lex.pos ∧
      lex1.pos = { Line := lex.pos.Line, Row := lex.pos.Row + lex.cursor } ∧
      lex1.cursor = 0 ∧
      lex1.in_.Runes = lex.in_.Runes.drop lex.cursor.toNat := by
  refine ⟨_, _, Emit_of_pos lex t h0 hc, rfl, rfl, rfl, rfl, rfl, rfl, rfl, rfl⟩

theorem Emit_postcondition_witness :
    (0 < ((freshOver "ab\ncd").Step 2).cursor ∧
      ((freshOver "ab\ncd").Step 2).cursor ≤ ((freshOver "ab\ncd").Step 2).in_.Runes.length) ∧
    ∃ lex1 tok, ((freshOver "ab\ncd").Step 2).Emit WORD = some lex1 ∧
      lex1.tokens = [] ++ [tok] ∧
      tok = .plain { typ := WORD, pos := { Line := 1, Row := 1 }, val := "ab" } ∧
      tok.Type = WORD ∧
      tok.String.data = ['a', 'b'] ∧
      tok.Position = { Line := 1, Row := 1 } ∧
      lex1.pos = { Line := 1, Row := 3 } ∧
      lex1.cursor = 0 ∧
      lex1.in_.Runes = ['\n', 'c', 'd'] :=
  ⟨by decide, Emit_postcondition ((freshOver "ab\ncd").Step 2) WORD (by decide) (by decide)⟩

/-- C2 (as stated, refuted): after `Step(2), Step(-3)` from cursor 0 the cursor is
`-1`, and `Emit` sends a token whose text has 0 runes, not `2 + (-3)`; after
`Step(7)` over five buffered runes `Emit` panics and sends nothing. -/
theorem steps_Emit_total_out_of_range :
    (freshOver "ab\ncd").cursor = 0 ∧
    ([2, -3] : List Int).sum = -1 ∧
    (steps (freshOver "ab\ncd") [2, -3]).cursor = -1 ∧
    ((steps (freshOver "ab\ncd") [2, -3]).Emit WORD).map
        (fun lex1 => lex1.tokens.map fun tok => (tok.String.length : Int)) = some [0] ∧
    (steps (freshOver "ab\ncd") [7]).Emit WORD = none := by
  decide

/-- C2 (amended): from a state with cursor 0, after `Step(n1), ..., Step(nk)` whose
total `n1 + ... + nk` is at least 0 and at most the number of buffered runes, the
cursor equals the total and `Emit(t)` returns, having sent exactly one token, of
type `t`, whose text has exactly `n1 + ... + nk` runes and whose position is the
position of the engine immediately before the `Emit`. -/
theorem steps_Emit_text_length (lex : lexer) (ns : List Int) (t : TokenType)
    (h0 : lex.cursor = 0) (hs : 0 ≤ ns.sum) (hb : ns.sum ≤ lex.in_.Runes.length) :
    (steps lex ns).cursor = ns.sum ∧
    ∃ lex1 tok, (steps lex ns).Emit t = some lex1 ∧
      lex1.tokens = lex.tokens ++ [tok] ∧
      tok.Type = t ∧
      (tok.String.length : Int) = ns.sum ∧
      tok.Position = (steps lex ns).Position := by
  have hcur : (steps lex ns).cursor = ns.sum := by rw [steps_cursor, h0, zero_add]
  obtain ⟨hpos, hin, htok⟩ := steps_frame ns lex
  refine ⟨hcur, ?_⟩
  rcases eq_or_lt_of_le hs with hz | hp
  · have hle : (steps lex ns).cursor ≤ 0 := by rw [hcur, ← hz]
    refine ⟨_, NewToken t [] (steps lex ns).pos, Emit_of_nonpos _ t hle, ?_, rfl, ?_, rfl⟩
    · simp [htok]
    · simp [NewToken, Token.String, token.String, String.length, ← hz]
  · have hlt : 0 < (steps lex ns).cursor := by rw [hcur]; exact hp
    have hle : (steps lex ns).cursor ≤ (steps lex ns).in_.Runes.length := by
      rw [hcur, hin]; exact hb
    refine ⟨_, NewToken t ((steps lex ns).in_.Runes.take (steps lex ns).cursor.toNat)
      (steps lex ns).pos, Emit_of_pos _ t hlt hle, ?_, rfl, ?_, rfl⟩
    · simp [htok]
    · have hn : ns.sum.toNat ≤ lex.in_.Runes.length := by
        have := Int.toNat_le_toNat hb
        simpa using this
      simp only [NewToken, Token.String, token.String, String.length, hcur, hin,
        List.length_take, min_eq_left hn]
      exact Int.toNat_of_nonneg hs

theorem steps_Emit_text_length_witness :
    ((freshOver "ab\ncd").cursor = 0 ∧ (0 : Int) ≤ ([1, 3, -2] : List Int).sum ∧
      ([1, 3, -2] : List Int).sum ≤ (freshOver "ab\ncd").in_.Runes.length) ∧
    (steps (freshOver "ab\ncd") [1, 3, -2]).cursor = ([1, 3, -2] : List Int).sum ∧
    ∃ lex1 tok, (steps (freshOver "ab\ncd") [1, 3, -2]).Emit WORD = some lex1 ∧
      lex1.tokens = (freshOver "ab\ncd").tokens ++ [tok] ∧
      tok.Type = WORD ∧
      (tok.String.length : Int) = ([1, 3, -2] : List Int).sum ∧
      tok.Position = (steps (freshOver "ab\ncd") [1, 3, -2]).Position :=
  ⟨by decide,
   steps_Emit_text_length (freshOver "ab\ncd") [1, 3, -2] WORD (by decide) (by decide)
     (by decide)⟩

/-- C3 (as stated, refuted): however much of `"ab\ncd"` the feeder has buffered,
whatever the capacity of the channel and however long the run may last, `Run` with
the start state `Step(2)`, `Emit(WORD)`, `NewLine()`, `Step(2)`, `Emit(WORD)`, nil
does not produce the stream `[WORD "ab" at {1,1}, WORD "cd" at {2,1}]`. -/
theorem Run_wordsState_not_ab_cd :
    ¬ ∃ (fuel k : Nat) (cap : Int),
        (NewLexer (some wordsState) (feederAbCd k) cap).bind (Engine.Run fuel) =
          some { tokens := [NewToken WORD ['a', 'b'] { Line := 1, Row := 1 },
                            NewToken WORD ['c', 'd'] { Line := 2, Row := 1 }],
                 closed := true } := by
  rintro ⟨fuel, k, cap, h⟩
  have hsmall : ∀ j, j ≤ 5 →
      (wordsState.call { in_ := feederAbCd j, pos := { Line := 1, Row := 1 }, cursor := 0,
                         tokens := [] }).map
          (fun r => ({ tokens := r.1.tokens, closed := true } : Stream)) ≠
        some { tokens := [NewToken WORD ['a', 'b'] { Line := 1, Row := 1 },
                          NewToken WORD ['c', 'd'] { Line := 2, Row := 1 }],
               closed := true } := by
    decide
  unfold NewLexer at h
  split at h
  · simp at h
  · cases fuel with
    | zero => simp [Engine.Run, trampoline] at h
    | succ fuel =>
      simp only [Option.some_bind] at h
      rw [Run_wordsState] at h
      by_cases hk : k ≤ 5
      · exact hsmall k hk h
      · rw [feederAbCd_whole k (by omega)] at h
        exact hsmall 5 (le_refl 5) h

/-- C3 (amended): for the input `"ab\ncd"`, all of it buffered by the feeder, and
the start state `Step(2)`, `Emit(WORD)`, `NewLine()`, `Step(2)`, `Emit(WORD)`, nil,
`Run` produces exactly the stream `[WORD "ab" at {1,1}, WORD "\nc" at {2,1}]` and
then the stream is closed. -/
theorem Run_wordsState_stream (fuel cap : Nat) :
    (NewLexer (some wordsState) (feederAbCd 5) cap).bind (Engine.Run (fuel + 1)) =
      some { tokens := [.plain { typ := WORD, pos := { Line := 1, Row := 1 }, val := "ab" },
                        .plain { typ := WORD, pos := { Line := 2, Row := 1 }, val := "\nc" }],
             closed := true } := by
  have hcap : ¬ ((cap : Int) < 0) := by omega
  simp only [NewLexer, hcap, if_false, Option.some_bind]
  rw [Run_wordsState]
  decide

/-- C4 (as stated, refuted): after `Step(-1)` from cursor 0 the cursor is `-1` and
`Emit` leaves it at `-1`, not 0; after `Step(7)` over five buffered runes `Emit`
panics, so that there is no state after it. -/
theorem Emit_cursor_not_reset :
    ((freshOver "ab\ncd").Step (-1)).cursor = -1 ∧
    (((freshOver "ab\ncd").Step (-1)).Emit WORD).map (fun lex1 => lex1.cursor) = some (-1) ∧
    ((freshOver "ab\ncd").Step 7).Emit WORD = none := by
  decide

/-- C4 (amended): from every engine state whose cursor `c` is at least 0 and at
most the number of buffered runes, `Emit` returns, and after it the cursor is 0 and
the feeder buffer is the former buffer without the `c` committed runes, which are
the text of the token sent. -/
theorem Emit_resets_cursor (lex : lexer) (t : TokenType) (h0 : 0 ≤ lex.cursor)
    (hc : lex.cursor ≤ lex.in_.Runes.length) :
    ∃ lex1 tok, lex.Emit t = some lex1 ∧
      lex1.tokens = lex.tokens ++ [tok] ∧
      lex1.cursor = 0 ∧
      tok.String.data = lex.in_.Runes.take lex.cursor.toNat ∧
      lex1.in_.Runes = lex.in_.Runes.drop lex.cursor.toNat ∧
      tok.String.data ++ lex1.in_.Runes = lex.in_.Runes := by
  rcases eq_or_lt_of_le h0 with hz | hp
  · refine ⟨_, NewToken t [] lex.pos, Emit_of_nonpos lex t (le_of_eq hz.symm), rfl, hz.symm,
      ?_, ?_, ?_⟩
    · simp [NewToken, Token.String, token.String, ← hz]
    · simp [← hz]
    · simp [NewToken, Token.String, token.String]
  · refine ⟨_, NewToken t (lex.in_.Runes.take lex.cursor.toNat) lex.pos,
      Emit_of_pos lex t hp hc, rfl, rfl, rfl, rfl, ?_⟩
    simp [NewToken, Token.String, token.String, Feeder.Skip, Feeder.Runes]

theorem Emit_resets_cursor_witness :
    ((0 : Int) ≤ ((freshOver "ab\ncd").Step 3).cursor ∧
      ((freshOver "ab\ncd").Step 3).cursor ≤ ((freshOver "ab\ncd").Step 3).in_.Runes.length) ∧
    ∃ lex1 tok, ((freshOver "ab\ncd").Step 3).Emit WORD = some lex1 ∧
      lex1.tokens = [] ++ [tok] ∧
      lex1.cursor = 0 ∧
      tok.String.data = ['a', 'b', '\n'] ∧
      lex1.in_.Runes = ['c', 'd'] ∧
      tok.String.data ++ lex1.in_.Runes = ['a', 'b', '\n', 'c', 'd'] :=
  ⟨by decide, Emit_resets_cursor ((freshOver "ab\ncd").Step 3) WORD (by decide) (by decide)⟩

/-- C5: from every engine state with cursor 0, `Emit(t)` returns, having sent
exactly one token, of type `t`, with empty text, at the current position, and
leaves the position, the cursor and the feeder unchanged. -/
theorem Emit_at_cursor_zero (lex : lexer) (t : TokenType) (h0 : lex.cursor = 0) :
    ∃ lex1 tok, lex.Emit t = some lex1 ∧
      lex1.tokens = lex.tokens ++ [tok] ∧
      tok = .plain { typ := t, pos := lex.pos, val := "" } ∧
      tok.Type = t ∧
      tok.String = "" ∧
      tok.String.length = 0 ∧
      tok.Position = lex.Position ∧
      lex1.pos = lex.pos ∧
      lex1.cursor = lex.cursor ∧
      lex1.in_ = lex.in_ :=
  ⟨_, NewToken t [] lex.pos, Emit_of_nonpos lex t (le_of_eq h0), rfl, rfl, rfl, rfl, rfl, rfl,
    rfl, rfl, rfl⟩

theorem Emit_at_cursor_zero_witness :
    (freshOver "ab\ncd").cursor = 0 ∧
    ∃ lex1 tok, (freshOver "ab\ncd").Emit WORD = some lex1 ∧
      lex1.tokens = [] ++ [tok] ∧
      tok = .plain { typ := WORD, pos := { Line := 1, Row := 1 }, val := "" } ∧
      tok.Type = WORD ∧
      tok.String = "" ∧
      tok.String.length = 0 ∧
      tok.Position = { Line := 1, Row := 1 } ∧
      lex1.pos = { Line := 1, Row := 1 } ∧
      lex1.cursor = 0 ∧
      lex1.in_ = (freshOver "ab\ncd").in_ :=
  ⟨by decide, Emit_at_cursor_zero (freshOver "ab\ncd") WORD (by decide)⟩

/-- C6: from every engine state with cursor `c ≥ 0` and for every `n`, `AtLeast(n)`
asks the feeder for `c + max(n,0)` runes; when the feeder answers `(s, err)`,
`AtLeast` returns `s` without its first `c` runes when `s` has more than `c` runes,
and no rune otherwise, together with `err` as the feeder gave it; the cursor, the
position and the tokens sent are unchanged. -/
theorem AtLeast_contract (lex : lexer) (n : Int) (s : List Rune) (err : Option GoError)
    (g : Feeder) (h0 : 0 ≤ lex.cursor)
    (hf : lex.in_.AtLeast (lex.cursor + max n 0) = ((s, err), g)) :
    ∃ lex1, lex.AtLeast n =
        some ((if lex.cursor < (s.length : Int) then s.drop lex.cursor.toNat else [], err),
              lex1) ∧
      lex1.in_ = g ∧ lex1.cursor = lex.cursor ∧ lex1.pos = lex.pos ∧
      lex1.tokens = lex.tokens := by
  refine ⟨{ lex with in_ := g }, ?_, rfl, rfl, rfl, rfl⟩
  rw [AtLeast_of_nonneg lex n h0, hf]

theorem AtLeast_contract_witness :
    ((0 : Int) ≤ (1 : Int) ∧
      (feederAbCd 2).AtLeast (1 + max 7 0) =
        ((['a', 'b', '\n', 'c', 'd'], some GoError.EOF), feederAbCd 5)) ∧
    ∃ lex1, lexer.AtLeast { in_ := feederAbCd 2, pos := { Line := 1, Row := 1 }, cursor := 1,
                            tokens := [] } 7 =
        some ((['b', '\n', 'c', 'd'], some GoError.EOF), lex1) ∧
      lex1.in_ = feederAbCd 5 ∧ lex1.cursor = 1 ∧ lex1.pos = { Line := 1, Row := 1 } ∧
      lex1.tokens = [] :=
  ⟨by decide,
   AtLeast_contract { in_ := feederAbCd 2, pos := { Line := 1, Row := 1 }, cursor := 1,
                      tokens := [] } 7 ['a', 'b', '\n', 'c', 'd'] (some GoError.EOF)
     (feederAbCd 5) (by decide) (by decide)⟩

/-- C7 (as stated, refuted): `EmitError(nil)` panics, in `err.Error()`, and sends no
token, from the state of a new engine as from any other. -/
theorem EmitError_nil_panics :
    (freshOver "ab\ncd").EmitError none = none ∧
    ((freshOver "ab\ncd").Step 2).EmitError none = none ∧
    Op.run sprintfPlain (Op.EmitError none) (freshOver "ab\ncd") = none := by
  decide

/-- C7 (amended): `EmitError` with an error that is not nil, `EmitErrorf` and
`EmitSyntaxError`, from every engine state and for every message and arguments,
return, leave the position, the cursor and the feeder as they were, and send
exactly one token, of the reserved error type and carrying the current position. -/
theorem EmitError_frame {α : Type} (sprintf : String → List α → String) (lex : lexer)
    (err : GoError) (msg : String) (args : List α) :
    (∃ lex1 tok, lex.EmitError (some err) = some lex1 ∧
      lex1.pos = lex.pos ∧ lex1.cursor = lex.cursor ∧ lex1.in_ = lex.in_ ∧
      lex1.tokens = lex.tokens ++ [tok] ∧
      tok.Type = TokenError ∧ tok.Position = lex.pos) ∧
    ((lex.EmitErrorf sprintf msg args).pos = lex.pos ∧
      (lex.EmitErrorf sprintf msg args).cursor = lex.cursor ∧
      (lex.EmitErrorf sprintf msg args).in_ = lex.in_ ∧
      ∃ tok, (lex.EmitErrorf sprintf msg args).tokens = lex.tokens ++ [tok] ∧
        tok.Type = TokenError ∧ tok.Position = lex.pos) ∧
    ((lex.EmitSyntaxError sprintf msg args).pos = lex.pos ∧
      (lex.EmitSyntaxError sprintf msg args).cursor = lex.cursor ∧
      (lex.EmitSyntaxError sprintf msg args).in_ = lex.in_ ∧
      ∃ tok, (lex.EmitSyntaxError sprintf msg args).tokens = lex.tokens ++ [tok] ∧
        tok.Type = TokenError ∧ tok.Position = lex.pos) :=
  ⟨⟨_, Token.error (NewErrorToken err lex.pos), rfl, rfl, rfl, rfl, rfl, rfl, rfl⟩,
    ⟨rfl, rfl, rfl, _, rfl, rfl, rfl⟩, ⟨rfl, rfl, rfl, _, rfl, rfl, rfl⟩⟩

/-- C8: for every message `msg`, position `{line, column}`, cursor `cur` and buffer,
the error message and the text of `NewSyntaxErrorToken(msg, pos, cur, buffer)` are
both `"Syntax Error at <line>.<column>+<cur>: <msg>"` when `msg` is not empty and
`"Syntax Error at <line>.<column>+<cur>"`, with nothing after it, when `msg` is
empty, where `<line>`, `<column>` and `<cur>` are the three integers written in
decimal; `"bad token"` with cursor 3, buffer `"xyz"` and position `{4,7}` gives
`"Syntax Error at 4.7+3: bad token"`. -/
theorem NewSyntaxErrorToken_message (msg : String) (pos : TokenPosition) (cur : Int)
    (buffer : List Rune) :
    (∃ line column cursor : String,
      IsDecimalOf line pos.Line ∧ IsDecimalOf column pos.Row ∧ IsDecimalOf cursor cur ∧
      (NewSyntaxErrorToken msg pos cur buffer).ErrorToken.Error =
        "Syntax Error at " ++ line ++ "." ++ column ++ "+" ++ cursor ++
          (if msg = "" then "" else ": " ++ msg)) ∧
    (msg ≠ "" → ∃ line column cursor : String,
      IsDecimalOf line pos.Line ∧ IsDecimalOf column pos.Row ∧ IsDecimalOf cursor cur ∧
      (NewSyntaxErrorToken msg pos cur buffer).ErrorToken.Error =
        "Syntax Error at " ++ line ++ "." ++ column ++ "+" ++ cursor ++ ": " ++ msg) ∧
    (msg = "" → ∃ line column cursor : String,
      IsDecimalOf line pos.Line ∧ IsDecimalOf column pos.Row ∧ IsDecimalOf cursor cur ∧
      (NewSyntaxErrorToken msg pos cur buffer).ErrorToken.Error =
        "Syntax Error at " ++ line ++ "." ++ column ++ "+" ++ cursor) ∧
    (NewSyntaxErrorToken msg pos cur buffer).ErrorToken.Error =
      "Syntax Error at " ++ fmtInt pos.Line ++ "." ++ fmtInt pos.Row ++ "+" ++ fmtInt cur ++
        (if msg = "" then "" else ": " ++ msg) ∧
    (∀ i : Int, IsDecimalOf (fmtInt i) i) ∧
    (Token.syntaxError (NewSyntaxErrorToken msg pos cur buffer)).String =
      (NewSyntaxErrorToken msg pos cur buffer).ErrorToken.Error ∧
    (Token.syntaxError (NewSyntaxErrorToken msg pos cur buffer)).Error =
      some (NewSyntaxErrorToken msg pos cur buffer).ErrorToken.Error ∧
    (fmtInt 4 = "4" ∧ fmtInt 7 = "7" ∧ fmtInt 3 = "3" ∧ fmtInt 120 = "120" ∧
      fmtInt (-15) = "-15") ∧
    (NewSyntaxErrorToken "bad token" { Line := 4, Row := 7 } 3 ['x', 'y', 'z']).ErrorToken.Error =
      "Syntax Error at 4.7+3: bad token" ∧
    (NewSyntaxErrorToken "" { Line := 4, Row := 7 } 3 ['x', 'y', 'z']).ErrorToken.Error =
      "Syntax Error at 4.7+3" := by
  have hmain : (NewSyntaxErrorToken msg pos cur buffer).ErrorToken.Error =
      "Syntax Error at " ++ fmtInt pos.Line ++ "." ++ fmtInt pos.Row ++ "+" ++ fmtInt cur ++
        (if msg = "" then "" else ": " ++ msg) := by
    by_cases h : msg = ""
    · subst h
      rw [NewSyntaxErrorToken_of_empty]
      simp [NewErrorToken, errorToken.Error, GoError.Error]
    · rw [NewSyntaxErrorToken_of_msg msg pos cur buffer h]
      simp [NewErrorToken, errorToken.Error, GoError.Error, h, String.append_assoc]
  refine ⟨⟨_, _, _, fmtInt_decimal _, fmtInt_decimal _, fmtInt_decimal _, hmain⟩,
    fun h => ⟨_, _, _, fmtInt_decimal _, fmtInt_decimal _, fmtInt_decimal _, ?_⟩,
    fun h => ⟨_, _, _, fmtInt_decimal _, fmtInt_decimal _, fmtInt_decimal _, ?_⟩,
    hmain, fmtInt_decimal, ?_, ?_, by decide, by decide, by decide⟩
  · rw [hmain, if_neg h]
    simp only [String.append_assoc]
  · rw [hmain, if_pos h]
    simp
  · by_cases h : msg = ""
    · subst h
      rw [NewSyntaxErrorToken_of_empty]
      rfl
    · rw [NewSyntaxErrorToken_of_msg msg pos cur buffer h]
      rfl
  · rfl

/-- C9: from every engine state, `EmitSyntaxError(msg)` without format arguments
sends one `SyntaxErrorToken` whose position is the current position of the engine,
whose `Cursor` is the cursor of the engine and whose `Buffer` is all that the
feeder has buffered at that moment, of the reserved error type. -/
theorem EmitSyntaxError_captures {α : Type} (sprintf : String → List α → String)
    (lex : lexer) (msg : String) :
    ∃ st : SyntaxErrorToken,
      (lex.EmitSyntaxError sprintf msg []).tokens = lex.tokens ++ [Token.syntaxError st] ∧
      st = NewSyntaxErrorToken msg lex.pos lex.cursor lex.in_.Runes ∧
      (Token.syntaxError st).Position = lex.Position ∧
      st.Cursor = lex.cursor ∧
      st.Buffer = String.mk lex.in_.Runes ∧
      st.Buffer.data = lex.in_.Runes ∧
      (Token.syntaxError st).Type = TokenError :=
  ⟨NewSyntaxErrorToken msg lex.pos lex.cursor lex.in_.Runes, by simp [lexer.EmitSyntaxError],
    rfl, rfl, rfl, rfl, rfl, rfl⟩

/-- C10: for every message `s`, whatever characters it holds, `EmitErrorf(s)`
without format arguments sends exactly one token, of the reserved error type, whose
text and `Error()` are `s` and whose position is the current position of the
engine; and on a new engine over a feeder at the end of its stream with nothing
buffered, the start state `AtLeast(n)`, `EmitErrorf("unexpected end of input")`, nil
makes `Run` produce the stream `[Error "unexpected end of input" at {1,1}]`,
closed. -/
theorem EmitErrorf_plain_message {α : Type} (sprintf : String → List α → String)
    (lex : lexer) (s : String) (n : Int) (fuel cap : Nat) :
    (∃ tok, (lex.EmitErrorf sprintf s []).tokens = lex.tokens ++ [tok] ∧
      tok.Type = TokenError ∧ tok.String = s ∧ tok.Error = some s ∧
      tok.Position = lex.Position) ∧
    lexer.AtLeast { in_ := feederAtEnd, pos := { Line := 1, Row := 1 }, cursor := 0,
                    tokens := [] } 1 =
      some (([], some GoError.EOF),
            { in_ := feederAtEnd, pos := { Line := 1, Row := 1 }, cursor := 0, tokens := [] }) ∧
    (NewLexer (some (endOfInputState sprintf n)) feederAtEnd cap).bind (Engine.Run (fuel + 1)) =
      some { tokens := [.error { tok := { typ := TokenError, pos := { Line := 1, Row := 1 },
                                          val := "unexpected end of input" },
                                 err := .New "unexpected end of input" }],
             closed := true } := by
  refine ⟨⟨Token.error (NewErrorToken (.New s) lex.pos), by simp [lexer.EmitErrorf], rfl, rfl,
    rfl, rfl⟩, by decide, ?_⟩
  have hcap : ¬ ((cap : Int) < 0) := by omega
  simp only [NewLexer, hcap, if_false, Option.some_bind]
  rw [Run_single fuel _ _
    (lexer.EmitErrorf sprintf
      { in_ := (feederAtEnd.AtLeast (0 + max n 0)).2, pos := { Line := 1, Row := 1 },
        cursor := 0, tokens := [] } "unexpected end of input" [])]
  · simp [lexer.EmitErrorf, NewErrorToken, GoError.Error]
  · simp only [endOfInputState, StateFn.call]
    rw [AtLeast_of_nonneg _ n (le_refl 0)]
    rfl

theorem Emit_isSome_of_le (lex : lexer) (t : TokenType)
    (hc : lex.cursor ≤ lex.in_.Runes.length) : ∃ lex1, lex.Emit t = some lex1 := by
  by_cases h0 : 0 < lex.cursor
  · exact ⟨_, Emit_of_pos lex t h0 hc⟩
  · exact ⟨_, Emit_of_nonpos lex t (not_lt.mp h0)⟩

theorem Op_run_of_cursorOk {α : Type} (sprintf : String → List α → String) (op : Op α)
    (lex : lexer) (h : op.cursorOk lex = true) : ∃ lex1, op.run sprintf lex = some lex1 := by
  cases op with
  | AtLeast n =>
    have h0 : 0 ≤ lex.cursor := by simpa [Op.cursorOk] using h
    refine ⟨{ lex with in_ := (lex.in_.AtLeast (lex.cursor + max n 0)).2 }, ?_⟩
    simp only [Op.run, AtLeast_of_nonneg lex n h0, Option.map_some']
  | Emit typ =>
    have hc : lex.cursor ≤ lex.in_.Runes.length := by simpa [Op.cursorOk] using h
    obtain ⟨lex1, h1⟩ := Emit_isSome_of_le lex typ hc
    exact ⟨lex1, by simpa [Op.run] using h1⟩
  | Step n => exact ⟨_, rfl⟩
  | NewLine => exact ⟨_, rfl⟩
  | EmitError err =>
    cases err with
    | none => simp [Op.cursorOk] at h
    | some e => exact ⟨_, rfl⟩
  | EmitErrorf s args => exact ⟨_, rfl⟩
  | EmitSyntaxError s args => exact ⟨_, rfl⟩
  | Position => exact ⟨_, rfl⟩
  | Tokens => exact ⟨_, rfl⟩

theorem runOps_of_cursorInRange {α : Type} (sprintf : String → List α → String)
    (ops : List (Op α)) (lex : lexer) (h : cursorInRange sprintf ops lex = true) :
    ∃ lex1, runOps sprintf ops lex = some lex1 := by
  induction ops generalizing lex with
  | nil => exact ⟨lex, rfl⟩
  | cons op ops ih =>
    simp only [cursorInRange, Bool.and_eq_true] at h
    obtain ⟨lex1, h1⟩ := Op_run_of_cursorOk sprintf op lex h.1
    have h2 := h.2
    rw [h1] at h2
    obtain ⟨lex2, h3⟩ := ih lex1 h2
    exact ⟨lex2, by simp only [runOps, h1, Option.some_bind, h3]⟩

theorem Emit_some_cases (lex lex1 : lexer) (t : TokenType) (h : lex.Emit t = some lex1) :
    (0 < lex.cursor ∧ lex.cursor ≤ lex.in_.Runes.length ∧
      lex1 = { in_ := lex.in_.Skip lex.cursor, pos := lex.pos.Step lex.cursor, cursor := 0,
               tokens := lex.tokens ++
                 [NewToken t (lex.in_.Runes.take lex.cursor.toNat) lex.pos] }) ∨
    (lex.cursor ≤ 0 ∧
      lex1 = { lex with tokens := lex.tokens ++ [NewToken t [] lex.pos] }) := by
  by_cases h0 : 0 < lex.cursor
  · left
    by_cases hc : lex.cursor ≤ lex.in_.Runes.length
    · rw [Emit_of_pos lex t h0 hc] at h
      exact ⟨h0, hc, (Option.some.inj h).symm⟩
    · have h1 : 0 ≤ lex.cursor := le_of_lt h0
      simp [lexer.Emit, sliceTo, h0, h1, hc] at h
  · right
    rw [Emit_of_nonpos lex t (not_lt.mp h0)] at h
    exact ⟨not_lt.mp h0, (Option.some.inj h).symm⟩

theorem AtLeast_some_frame (lex : lexer) (n : Int)
    (r : (List Rune × Option GoError) × lexer) (h : lex.AtLeast n = some r) :
    r.2.pos = lex.pos ∧ r.2.cursor = lex.cursor ∧ r.2.tokens = lex.tokens := by
  by_cases h0 : 0 ≤ lex.cursor
  · rw [AtLeast_of_nonneg lex n h0] at h
    have h1 := Option.some.inj h
    subst h1
    exact ⟨rfl, rfl, rfl⟩
  · exfalso
    have hl : ∀ l : List Rune, (l.length : Int) > lex.cursor := fun l => by
      have := Int.ofNat_nonneg l.length
      omega
    simp [lexer.AtLeast, hl, sliceFrom, h0] at h

/-- C12 (as stated, refuted): `NewLine` moves the position from `{1,1}` to `{2,1}`,
and `Step(-2)` sets the cursor 2 to 0. -/
theorem NewLine_moves_and_Step_zeroes :
    (freshOver "ab\ncd").pos = { Line := 1, Row := 1 } ∧
    (freshOver "ab\ncd").NewLine.pos = { Line := 2, Row := 1 } ∧
    (freshOver "ab\ncd").NewLine.pos ≠ (freshOver "ab\ncd").pos ∧
    ((freshOver "ab\ncd").Step 2).cursor = 2 ∧
    (((freshOver "ab\ncd").Step 2).Step (-2)).cursor = 0 := by
  decide

/-- C12 (amended): of the operations other than `Emit`, from every engine state,
`AtLeast`, `Step`, `EmitError`, `EmitErrorf`, `EmitSyntaxError`, `Position` and
`Tokens` leave the position as it was and `NewLine` moves it to `{line + 1, 1}`;
`AtLeast`, `NewLine`, `EmitError`, `EmitErrorf`, `EmitSyntaxError`, `Position` and
`Tokens` leave the cursor as it was and `Step(n)` makes it `cursor + n`, which turns
a cursor that is not 0 into 0 only when `n = -cursor`. -/
theorem frame_of_other_operations {α : Type} (sprintf : String → List α → String)
    (lex : lexer) (n : Int) (err : GoError) (s : String) (args : List α) :
    ((0 ≤ lex.cursor → ∃ r, lex.AtLeast n = some r) ∧
      ∀ r, lex.AtLeast n = some r → r.2.pos = lex.pos ∧ r.2.cursor = lex.cursor) ∧
    ((lex.Step n).pos = lex.pos ∧ (lex.Step n).cursor = lex.cursor + n ∧
      (lex.cursor ≠ 0 → ((lex.Step n).cursor = 0 ↔ n = -lex.cursor))) ∧
    (lex.NewLine.pos = { Line := lex.pos.Line + 1, Row := 1 } ∧
      lex.NewLine.cursor = lex.cursor) ∧
    ((∃ lex1, lex.EmitError (some err) = some lex1) ∧
      ∀ (e : error) (lex1 : lexer), lex.EmitError e = some lex1 →
        lex1.pos = lex.pos ∧ lex1.cursor = lex.cursor) ∧
    ((lex.EmitErrorf sprintf s args).pos = lex.pos ∧
      (lex.EmitErrorf sprintf s args).cursor = lex.cursor) ∧
    ((lex.EmitSyntaxError sprintf s args).pos = lex.pos ∧
      (lex.EmitSyntaxError sprintf s args).cursor = lex.cursor) ∧
    (Op.run sprintf Op.Position lex = some lex ∧ Op.run sprintf Op.Tokens lex = some lex) := by
  refine ⟨⟨fun h0 => ⟨_, AtLeast_of_nonneg lex n h0⟩, fun r h => ?_⟩, ⟨rfl, rfl, fun _ => ?_⟩,
    ⟨rfl, rfl⟩, ⟨⟨_, rfl⟩, fun e lex1 h => ?_⟩, ⟨rfl, rfl⟩, ⟨rfl, rfl⟩, ⟨rfl, rfl⟩⟩
  · exact ⟨(AtLeast_some_frame lex n r h).1, (AtLeast_some_frame lex n r h).2.1⟩
  rotate_left
  · obtain ⟨_, _, h1⟩ := EmitError_some_cases lex lex1 e h
    rw [h1]
    exact ⟨rfl, rfl⟩
  · simp only [lexer.Step]
    constructor <;> intro h <;> omega

/-- C13: from every engine state, the token sent by an `Emit`, `EmitError`,
`EmitErrorf` or `EmitSyntaxError` that follows immediately carries the value that
`Position()` returns, and `Step(n)` and `AtLeast(n)` leave that value unchanged;
`Emit` returns when the cursor is at most the number of buffered runes, and
`AtLeast` when the cursor is at least 0. -/
theorem Position_is_next_token_position {α : Type} (sprintf : String → List α → String)
    (lex : lexer) (t : TokenType) (n : Int) (err : GoError) (s : String) (args : List α) :
    ((lex.cursor ≤ lex.in_.Runes.length → ∃ lex1, lex.Emit t = some lex1) ∧
      ∀ lex1, lex.Emit t = some lex1 →
        ∃ tok, lex1.tokens = lex.tokens ++ [tok] ∧ tok.Position = lex.Position) ∧
    ((∃ lex1 tok, lex.EmitError (some err) = some lex1 ∧
        lex1.tokens = lex.tokens ++ [tok] ∧ tok.Position = lex.Position) ∧
      ∀ (e : error) (lex1 : lexer), lex.EmitError e = some lex1 →
        ∃ tok, lex1.tokens = lex.tokens ++ [tok] ∧ tok.Position = lex.Position) ∧
    (∃ tok, (lex.EmitErrorf sprintf s args).tokens = lex.tokens ++ [tok] ∧
      tok.Position = lex.Position) ∧
    (∃ tok, (lex.EmitSyntaxError sprintf s args).tokens = lex.tokens ++ [tok] ∧
      tok.Position = lex.Position) ∧
    (lex.Step n).Position = lex.Position ∧
    ((0 ≤ lex.cursor → ∃ r, lex.AtLeast n = some r) ∧
      ∀ r, lex.AtLeast n = some r → r.2.Position = lex.Position) := by
  refine ⟨⟨Emit_isSome_of_le lex t, fun lex1 h => ?_⟩,
    ⟨⟨_, Token.error (NewErrorToken err lex.pos), rfl, rfl, rfl⟩, fun e lex1 h => ?_⟩,
    ⟨_, rfl, rfl⟩, ⟨_, rfl, rfl⟩, rfl, fun h0 => ⟨_, AtLeast_of_nonneg lex n h0⟩,
    fun r h => (AtLeast_some_frame lex n r h).1⟩
  rotate_left
  · obtain ⟨e1, _, h1⟩ := EmitError_some_cases lex lex1 e h
    exact ⟨Token.error (NewErrorToken e1 lex.pos), by rw [h1], rfl⟩
  rcases Emit_some_cases lex lex1 t h with ⟨_, _, h1⟩ | ⟨_, h1⟩
  · exact ⟨NewToken t (lex.in_.Runes.take lex.cursor.toNat) lex.pos, by rw [h1], rfl⟩
  · exact ⟨NewToken t [] lex.pos, by rw [h1], rfl⟩

theorem TokenPosition.le_refl (a : TokenPosition) : a.le a :=
  Or.inr ⟨rfl, Int.le_refl _⟩

theorem TokenPosition.le_trans (a b c : TokenPosition) (h1 : a.le b) (h2 : b.le c) :
    a.le c := by
  unfold TokenPosition.le at *
  omega

theorem Op_run_effect {α : Type} (sprintf : String → List α → String) (op : Op α)
    (lex lex1 : lexer) (h : op.run sprintf lex = some lex1) :
    (lex1.tokens = lex.tokens ++ (if op.isEmit then lex1.tokens.getLast?.toList else []) ∧
      (∀ tok ∈ (if op.isEmit then lex1.tokens.getLast?.toList else []),
        tok.Position = lex.pos) ∧
      (if op.isEmit then lex1.tokens.getLast?.toList else []).length =
        (if op.isEmit then 1 else 0)) ∧
    (lex1.pos = lex.pos ∨ lex1.pos = { Line := lex.pos.Line + 1, Row := 1 } ∨
      (lex1.pos.Line = lex.pos.Line ∧ lex.pos.Row < lex1.pos.Row)) := by
  cases op with
  | AtLeast n =>
    simp only [Op.run, Option.map_eq_some'] at h
    obtain ⟨r, hr, h1⟩ := h
    obtain ⟨hp, _, ht⟩ := AtLeast_some_frame lex n r hr
    subst h1
    simp [Op.isEmit, ht, hp]
  | Step n =>
    cases h
    simp [Op.isEmit, lexer.Step]
  | NewLine =>
    cases h
    simp [Op.isEmit, lexer.NewLine, TokenPosition.NewLine]
  | Emit typ =>
    rcases Emit_some_cases lex lex1 typ h with ⟨h0, _, h1⟩ | ⟨_, h1⟩
    · subst h1
      refine ⟨by simp [Op.isEmit, NewToken, Token.Position, token.Position],
        Or.inr (Or.inr ⟨rfl, ?_⟩)⟩
      show lex.pos.Row < lex.pos.Row + lex.cursor
      omega
    · subst h1
      simp [Op.isEmit, NewToken, Token.Position, token.Position]
  | EmitError err =>
    obtain ⟨e, _, h1⟩ := EmitError_some_cases lex lex1 err h
    subst h1
    simp [Op.isEmit, NewErrorToken, Token.Position, token.Position]
  | EmitErrorf s args =>
    cases h
    simp [Op.isEmit, lexer.EmitErrorf, NewErrorToken, Token.Position, token.Position]
  | EmitSyntaxError s args =>
    cases h
    simp [Op.isEmit, lexer.EmitSyntaxError, NewSyntaxErrorToken, NewErrorToken, Token.Position,
      token.Position]
  | Position =>
    cases h
    simp [Op.isEmit]
  | Tokens =>
    cases h
    simp [Op.isEmit]

theorem Op_run_pos_le {α : Type} (sprintf : String → List α → String) (op : Op α)
    (lex lex1 : lexer) (h : op.run sprintf lex = some lex1) : lex.pos.le lex1.pos := by
  rcases (Op_run_effect sprintf op lex lex1 h).2 with h1 | h1 | h1
  · rw [h1]
    exact TokenPosition.le_refl _
  · rw [h1]
    exact Or.inl (by simp)
  · exact Or.inr ⟨h1.1.symm, le_of_lt h1.2⟩

theorem runOps_cons {α : Type} (sprintf : String → List α → String) (op : Op α)
    (ops : List (Op α)) (lex lex2 : lexer) (h : runOps sprintf (op :: ops) lex = some lex2) :
    ∃ lex1, op.run sprintf lex = some lex1 ∧ runOps sprintf ops lex1 = some lex2 := by
  simpa only [runOps, Option.bind_eq_some] using h

theorem callTokens_cons {α : Type} (sprintf : String → List α → String) (op : Op α)
    (ops : List (Op α)) (lex lex1 : lexer) (h : op.run sprintf lex = some lex1) :
    callTokens sprintf (op :: ops) lex =
      (if op.isEmit then lex1.tokens.getLast?.toList else []) ++ callTokens sprintf ops lex1 := by
  simp only [callTokens, h]

theorem runOps_tokens {α : Type} (sprintf : String → List α → String) (ops : List (Op α))
    (lex lex1 : lexer) (h : runOps sprintf ops lex = some lex1) :
    lex1.tokens = lex.tokens ++ callTokens sprintf ops lex := by
  induction ops generalizing lex with
  | nil =>
    cases h
    simp [callTokens]
  | cons op ops ih =>
    obtain ⟨lex2, h1, h2⟩ := runOps_cons sprintf op ops lex lex1 h
    rw [callTokens_cons sprintf op ops lex lex2 h1, ih lex2 h2,
      (Op_run_effect sprintf op lex lex2 h1).1.1, List.append_assoc]
    congr 2
    rw [← (Op_run_effect sprintf op lex lex2 h1).1.1]

theorem runOps_sorted {α : Type} (sprintf : String → List α → String) (ops : List (Op α))
    (lex lex1 : lexer) (h : runOps sprintf ops lex = some lex1) :
    lex.pos.le lex1.pos ∧
    (∀ tok ∈ callTokens sprintf ops lex, lex.pos.le tok.Position ∧ tok.Position.le lex1.pos) ∧
    (callTokens sprintf ops lex).Pairwise (fun a b => a.Position.le b.Position) := by
  induction ops generalizing lex with
  | nil =>
    cases h
    simp [callTokens, TokenPosition.le_refl]
  | cons op ops ih =>
    obtain ⟨lex2, h1, h2⟩ := runOps_cons sprintf op ops lex lex1 h
    obtain ⟨hle, hmem, hpair⟩ := ih lex2 h2
    have hstep : lex.pos.le lex2.pos := Op_run_pos_le sprintf op lex lex2 h1
    have hnew := (Op_run_effect sprintf op lex lex2 h1).1.2.1
    rw [callTokens_cons sprintf op ops lex lex2 h1]
    refine ⟨TokenPosition.le_trans _ _ _ hstep hle, ?_, ?_⟩
    · intro tok htok
      rcases List.mem_append.mp htok with ht | ht
      · rw [hnew tok ht]
        exact ⟨TokenPosition.le_refl _, TokenPosition.le_trans _ _ _ hstep hle⟩
      · exact ⟨TokenPosition.le_trans _ _ _ hstep (hmem tok ht).1, (hmem tok ht).2⟩
    · rw [List.pairwise_append]
      refine ⟨List.pairwise_of_forall_mem_list ?_, hpair, ?_⟩
      · intro a ha b hb
        rw [hnew a ha, hnew b hb]
        exact TokenPosition.le_refl _
      · intro a ha b hb
        rw [hnew a ha]
        exact TokenPosition.le_trans _ _ _ hstep (hmem b hb).1

theorem runOps_ge_one {α : Type} (sprintf : String → List α → String) (ops : List (Op α))
    (lex lex1 : lexer) (hl : 1 ≤ lex.pos.Line) (hr : 1 ≤ lex.pos.Row)
    (h : runOps sprintf ops lex = some lex1) :
    (1 ≤ lex1.pos.Line ∧ 1 ≤ lex1.pos.Row) ∧
    ∀ tok ∈ callTokens sprintf ops lex, 1 ≤ tok.Position.Line ∧ 1 ≤ tok.Position.Row := by
  induction ops generalizing lex with
  | nil =>
    cases h
    simp [callTokens, hl, hr]
  | cons op ops ih =>
    obtain ⟨lex2, h1, h2⟩ := runOps_cons sprintf op ops lex lex1 h
    have hnew := (Op_run_effect sprintf op lex lex2 h1).1.2.1
    have h2pos : 1 ≤ lex2.pos.Line ∧ 1 ≤ lex2.pos.Row := by
      rcases (Op_run_effect sprintf op lex lex2 h1).2 with e | e | e
      · rw [e]
        exact ⟨hl, hr⟩
      · rw [e]
        exact ⟨by show 1 ≤ lex.pos.Line + 1; omega, by show (1 : Int) ≤ 1; omega⟩
      · exact ⟨by omega, by omega⟩
    obtain ⟨hfin, hmem⟩ := ih lex2 h2pos.1 h2pos.2 h2
    rw [callTokens_cons sprintf op ops lex lex2 h1]
    refine ⟨hfin, ?_⟩
    intro tok htok
    rcases List.mem_append.mp htok with ht | ht
    · rw [hnew tok ht]
      exact ⟨hl, hr⟩
    · exact hmem tok ht

/-- C14: in every run of engine operations (`Step`, `NewLine`, `AtLeast`, `Emit`,
`EmitError`, `EmitErrorf`, `EmitSyntaxError`), whatever the state it starts from,
no operation decreases the engine position in the order by line, then column, and
of two tokens the run sends the one sent first has the smaller or equal position;
so the stream of a run that starts with no token sent is ordered by position. -/
theorem token_positions_monotone {α : Type} (sprintf : String → List α → String)
    (ops : List (Op α)) (lex lex1 : lexer) (h : runOps sprintf ops lex = some lex1) :
    lex.pos.le lex1.pos ∧
    (∀ (op : Op α) (l l1 : lexer), op.run sprintf l = some l1 → l.pos.le l1.pos) ∧
    (∃ sent, lex1.tokens = lex.tokens ++ sent ∧
      sent.Pairwise (fun a b => a.Position.le b.Position) ∧
      ∀ tok ∈ sent, lex.pos.le tok.Position ∧ tok.Position.le lex1.pos) ∧
    (lex.tokens = [] → lex1.tokens.Pairwise (fun a b => a.Position.le b.Position)) := by
  obtain ⟨hle, hmem, hpair⟩ := runOps_sorted sprintf ops lex lex1 h
  have htok := runOps_tokens sprintf ops lex lex1 h
  refine ⟨hle, fun op l l1 hop => Op_run_pos_le sprintf op l l1 hop,
    ⟨_, htok, hpair, hmem⟩, fun hnil => ?_⟩
  rw [htok, hnil, List.nil_append]
  exact hpair

theorem token_positions_monotone_witness :
    ∃ lex1, runOps sprintfPlain linesScript newOverAbCd = some lex1 ∧
      lex1.tokens.map (fun tok => tok.Position) =
        [{ Line := 1, Row := 1 }, { Line := 1, Row := 3 }, { Line := 2, Row := 1 },
          { Line := 2, Row := 1 }] ∧
      newOverAbCd.pos.le lex1.pos ∧
      (∀ (op : Op Unit) (l l1 : lexer), op.run sprintfPlain l = some l1 → l.pos.le l1.pos) ∧
      (∃ sent, lex1.tokens = newOverAbCd.tokens ++ sent ∧
        sent.Pairwise (fun a b => a.Position.le b.Position) ∧
        ∀ tok ∈ sent, newOverAbCd.pos.le tok.Position ∧ tok.Position.le lex1.pos) ∧
      (newOverAbCd.tokens = [] →
        lex1.tokens.Pairwise (fun a b => a.Position.le b.Position)) :=
  ⟨_, rfl, by decide, token_positions_monotone sprintfPlain linesScript newOverAbCd _ rfl⟩

/-- C15: a new engine starts at position `{1,1}` and `Reset()` gives `{1,1}`; and
from a state whose position has line and column at least 1, as after construction
or reset, after every sequence of engine operations (`Step`, `NewLine`, `AtLeast`,
`Emit`, `EmitError`, `EmitErrorf`, `EmitSyntaxError`) the line and the column of
the engine position are at least 1, and so are those of every token sent. -/
theorem position_at_least_one {α : Type} (sprintf : String → List α → String)
    (ops : List (Op α)) (lex lex1 : lexer) (hl : 1 ≤ lex.pos.Line) (hr : 1 ≤ lex.pos.Row)
    (h : runOps sprintf ops lex = some lex1) :
    (∀ (start : Option StateFn) (f : Feeder) (cap : Int) (e : Engine),
      NewLexer start f cap = some e → e.lex.pos = { Line := 1, Row := 1 }) ∧
    (∀ pos : TokenPosition, pos.Reset = { Line := 1, Row := 1 }) ∧
    (1 ≤ lex1.pos.Line ∧ 1 ≤ lex1.pos.Row) ∧
    (∃ sent, lex1.tokens = lex.tokens ++ sent ∧
      ∀ tok ∈ sent, 1 ≤ tok.Position.Line ∧ 1 ≤ tok.Position.Row) ∧
    (lex.tokens = [] →
      ∀ tok ∈ lex1.tokens, 1 ≤ tok.Position.Line ∧ 1 ≤ tok.Position.Row) := by
  obtain ⟨hfin, hmem⟩ := runOps_ge_one sprintf ops lex lex1 hl hr h
  have htok := runOps_tokens sprintf ops lex lex1 h
  refine ⟨?_, fun _ => rfl, hfin, ⟨_, htok, hmem⟩, fun hnil => ?_⟩
  · intro start f cap e he
    unfold NewLexer at he
    split at he
    · cases he
    · cases he
      rfl
  · rw [htok, hnil, List.nil_append]
    exact hmem

theorem position_at_least_one_witness :
    ((1 : Int) ≤ newOverAbCd.pos.Line ∧ (1 : Int) ≤ newOverAbCd.pos.Row) ∧
    ∃ lex1, runOps sprintfPlain linesScript newOverAbCd = some lex1 ∧
      lex1.pos = { Line := 2, Row := 3 } ∧
      (∀ (start : Option StateFn) (f : Feeder) (cap : Int) (e : Engine),
        NewLexer start f cap = some e → e.lex.pos = { Line := 1, Row := 1 }) ∧
      (∀ pos : TokenPosition, pos.Reset = { Line := 1, Row := 1 }) ∧
      (1 ≤ lex1.pos.Line ∧ 1 ≤ lex1.pos.Row) ∧
      (∃ sent, lex1.tokens = newOverAbCd.tokens ++ sent ∧
        ∀ tok ∈ sent, 1 ≤ tok.Position.Line ∧ 1 ≤ tok.Position.Row) ∧
      (newOverAbCd.tokens = [] →
        ∀ tok ∈ lex1.tokens, 1 ≤ tok.Position.Line ∧ 1 ≤ tok.Position.Row) :=
  ⟨by decide, _, rfl, by decide,
    position_at_least_one sprintfPlain linesScript newOverAbCd _ (by decide) (by decide) rfl⟩

theorem callTokens_length {α : Type} (sprintf : String → List α → String)
    (ops : List (Op α)) (lex lex1 : lexer) (h : runOps sprintf ops lex = some lex1) :
    (callTokens sprintf ops lex).length = (ops.filter Op.isEmit).length := by
  induction ops generalizing lex with
  | nil => simp [callTokens]
  | cons op ops ih =>
    obtain ⟨lex2, h1, h2⟩ := runOps_cons sprintf op ops lex lex1 h
    have hlen := (Op_run_effect sprintf op lex lex2 h1).1.2.2
    rw [callTokens_cons sprintf op ops lex lex2 h1, List.length_append, hlen, ih lex2 h2]
    cases hop : op.isEmit <;> simp [List.filter_cons, hop]
    omega

theorem trampoline_of_Reaches (k : Nat) (start : Option StateFn) (lex lex1 : lexer)
    (h : Reaches k start lex lex1) (fuel : Nat) :
    trampoline fuel start lex = if k ≤ fuel then .done lex1 else .outOfFuel := by
  induction h generalizing fuel with
  | done l => simp [trampoline_none]
  | call k state next l l1 l2 hcall _ ih =>
    cases fuel with
    | zero => simp [trampoline]
    | succ fuel =>
      rw [trampoline_succ, hcall]
      simp only [ih fuel, Nat.add_le_add_iff_right]

/-- C16: when the chain of state functions from the start state reaches nil after
`k` invocations, each made on the state the one before left, `Run` makes exactly
those invocations (it ends when allowed at least `k` calls and not with fewer) and
then closes the channel; the closed stream holds the tokens of the state the last
invocation left; with a nil start state `Run` closes the channel at once, with no
token on a new engine. -/
theorem Run_trampoline (k fuel : Nat) (start : Option StateFn) (lex lex1 : lexer)
    (h : Reaches k start lex lex1) :
    (k ≤ fuel →
      Engine.Run fuel { start := start, lex := lex } =
        some { tokens := lex1.tokens, closed := true }) ∧
    (fuel < k → Engine.Run fuel { start := start, lex := lex } = none) ∧
    (∀ l : lexer, Engine.Run fuel { start := none, lex := l } =
      some { tokens := l.tokens, closed := true }) ∧
    (∀ (f : Feeder) (cap : Nat),
      (NewLexer none f cap).bind (Engine.Run fuel) = some { tokens := [], closed := true }) := by
  have ht := trampoline_of_Reaches k start lex lex1 h fuel
  refine ⟨fun hk => ?_, fun hk => ?_, fun l => ?_, fun f cap => ?_⟩
  · simp only [Engine.Run, ht, if_pos hk]
  · simp only [Engine.Run, ht, if_neg (not_le.mpr hk)]
  · simp only [Engine.Run, trampoline_none]
  · have hcap : ¬ ((cap : Int) < 0) := by omega
    simp only [NewLexer, hcap, if_false, Option.some_bind, Engine.Run, trampoline_none]

theorem Run_trampoline_witness :
    ∃ lex1 lex2,
      wordThenReport.call (freshOver "ab\ncd") = some (lex1, some reportState) ∧
      reportState.call lex1 = some (lex2, none) ∧
      lex2.tokens =
        [.plain { typ := WORD, pos := { Line := 1, Row := 1 }, val := "ab" },
         .error { tok := { typ := TokenError, pos := { Line := 1, Row := 3 }, val := "stop" },
                  err := .Other "stop" }] ∧
      ((2 ≤ 5 →
        Engine.Run 5 { start := some wordThenReport, lex := freshOver "ab\ncd" } =
          some { tokens := lex2.tokens, closed := true }) ∧
      (5 < 2 →
        Engine.Run 5 { start := some wordThenReport, lex := freshOver "ab\ncd" } = none) ∧
      (∀ l : lexer, Engine.Run 5 { start := none, lex := l } =
        some { tokens := l.tokens, closed := true }) ∧
      (∀ (f : Feeder) (cap : Nat),
        (NewLexer none f cap).bind (Engine.Run 5) = some { tokens := [], closed := true })) :=
  ⟨_, _, rfl, rfl, by decide,
    Run_trampoline 2 5 (some wordThenReport) (freshOver "ab\ncd") _
      (Reaches.call 1 wordThenReport (some reportState) _ _ _ rfl
        (Reaches.call 0 reportState none _ _ _ rfl (Reaches.done _)))⟩

/-- C17: the stream matches the order of the calls: after every sequence of engine
operations the tokens on the channel are those that were there before, unchanged,
followed by the token of each `Emit`, `EmitError`, `EmitErrorf` and
`EmitSyntaxError` call, in the order of the calls, one token for each such call;
each such call appends exactly one token and `Step`, `NewLine`, `AtLeast`,
`Position` and `Tokens` send none. -/
theorem tokens_in_call_order {α : Type} (sprintf : String → List α → String)
    (ops : List (Op α)) (lex lex1 : lexer) (h : runOps sprintf ops lex = some lex1) :
    lex1.tokens = lex.tokens ++ callTokens sprintf ops lex ∧
    (callTokens sprintf ops lex).length = (ops.filter Op.isEmit).length ∧
    (lex.tokens = [] → ∀ i : Nat, lex1.tokens[i]? = (callTokens sprintf ops lex)[i]?) ∧
    (∀ (op : Op α) (l l1 : lexer), op.run sprintf l = some l1 →
      (op.isEmit = true → ∃ tok, l1.tokens = l.tokens ++ [tok]) ∧
      (op.isEmit = false → l1.tokens = l.tokens)) := by
  have htok := runOps_tokens sprintf ops lex lex1 h
  refine ⟨htok, callTokens_length sprintf ops lex lex1 h, fun hnil i => ?_,
    fun op l l1 hop => ⟨fun he => ?_, fun he => ?_⟩⟩
  · rw [htok, hnil, List.nil_append]
  · have hx := (Op_run_effect sprintf op l l1 hop).1
    rw [he] at hx
    simp only [if_true] at hx
    obtain ⟨h1, _, h3⟩ := hx
    obtain ⟨tok, htk⟩ := List.length_eq_one.mp h3
    exact ⟨tok, by rw [← htk]; exact h1⟩
  · have h1 := (Op_run_effect sprintf op l l1 hop).1.1
    rw [he] at h1
    simpa using h1

theorem tokens_in_call_order_witness :
    ∃ lex1, runOps sprintfPlain linesScript newOverAbCd = some lex1 ∧
      callTokens sprintfPlain linesScript newOverAbCd =
        [.plain { typ := WORD, pos := { Line := 1, Row := 1 }, val := "ab" },
         .plain { typ := WORD, pos := { Line := 1, Row := 3 }, val := "\n" },
         .error { tok := { typ := TokenError, pos := { Line := 2, Row := 1 }, val := "EOF" },
                  err := .EOF },
         .plain { typ := WORD, pos := { Line := 2, Row := 1 }, val := "cd" }] ∧
      (lex1.tokens = newOverAbCd.tokens ++ callTokens sprintfPlain linesScript newOverAbCd ∧
      (callTokens sprintfPlain linesScript newOverAbCd).length =
        (linesScript.filter Op.isEmit).length ∧
      (newOverAbCd.tokens = [] →
        ∀ i : Nat, lex1.tokens[i]? = (callTokens sprintfPlain linesScript newOverAbCd)[i]?) ∧
      (∀ (op : Op Unit) (l l1 : lexer), op.run sprintfPlain l = some l1 →
        (op.isEmit = true → ∃ tok, l1.tokens = l.tokens ++ [tok]) ∧
        (op.isEmit = false → l1.tokens = l.tokens))) :=
  ⟨_, rfl, by decide, tokens_in_call_order sprintfPlain linesScript newOverAbCd _ rfl⟩

theorem wrapInt_of_range (x : Int) (h1 : MinInt ≤ x) (h2 : x ≤ MaxInt) : wrapInt x = x := by
  unfold wrapInt
  unfold MinInt at h1
  unfold MaxInt at h2
  omega

/-- C18 (as stated, refuted): on the `int` of 64 bits, `Step(1)` takes the position
`{1, MaxInt}` to `{1, MinInt}`, not to `{1, MaxInt + 1}`, and `NewLine()` takes
`{MaxInt, 3}` to `{MinInt, 1}`, not to `{MaxInt + 1, 1}`. -/
theorem position_tracker_wraps :
    TokenPosition.StepInt64 { Line := 1, Row := MaxInt } 1 = { Line := 1, Row := MinInt } ∧
    TokenPosition.StepInt64 { Line := 1, Row := MaxInt } 1 ≠
      { Line := 1, Row := MaxInt + 1 } ∧
    TokenPosition.NewLineInt64 { Line := MaxInt, Row := 3 } = { Line := MinInt, Row := 1 } ∧
    TokenPosition.NewLineInt64 { Line := MaxInt, Row := 3 } ≠
      { Line := MaxInt + 1, Row := 1 } := by
  decide

/-- C18 (amended): for every position `{l, c}` and every `n`, `Step(n)` leaves the
line unchanged and yields `{l, c + n}` when `c + n` lies within the range of `int`,
and the sum wrapped into that range otherwise; `NewLine()` yields `{l + 1, 1}` when
`l + 1` lies within the range of `int`, and the wrapped sum for the line otherwise;
`Reset()` yields `{1, 1}`; the `NewLine()` of the engine applies the `NewLine` of
the tracker to the engine position and leaves the cursor, the feeder and the tokens
sent as they were. -/
theorem position_tracker_arithmetic (l c n : Int) (lex : lexer) :
    ((MinInt ≤ c + n → c + n ≤ MaxInt →
        TokenPosition.StepInt64 { Line := l, Row := c } n = { Line := l, Row := c + n }) ∧
      TokenPosition.StepInt64 { Line := l, Row := c } n =
        { Line := l, Row := wrapInt (c + n) } ∧
      (TokenPosition.StepInt64 { Line := l, Row := c } n).Line = l) ∧
    ((MinInt ≤ l + 1 → l + 1 ≤ MaxInt →
        TokenPosition.NewLineInt64 { Line := l, Row := c } = { Line := l + 1, Row := 1 }) ∧
      TokenPosition.NewLineInt64 { Line := l, Row := c } =
        { Line := wrapInt (l + 1), Row := 1 }) ∧
    TokenPosition.Reset { Line := l, Row := c } = { Line := 1, Row := 1 } ∧
    (TokenPosition.StepInt64 { Line := 4, Row := 7 } 3 = { Line := 4, Row := 10 } ∧
      TokenPosition.StepInt64 { Line := 4, Row := 7 } (-9) = { Line := 4, Row := -2 } ∧
      TokenPosition.NewLineInt64 { Line := 4, Row := 7 } = { Line := 5, Row := 1 }) ∧
    ((MinInt ≤ c + n → c + n ≤ MaxInt →
        TokenPosition.Step { Line := l, Row := c } n =
          TokenPosition.StepInt64 { Line := l, Row := c } n) ∧
      (MinInt ≤ l + 1 → l + 1 ≤ MaxInt →
        TokenPosition.NewLine { Line := l, Row := c } =
          TokenPosition.NewLineInt64 { Line := l, Row := c })) ∧
    lex.NewLine.pos = lex.pos.NewLine ∧
    (MinInt ≤ lex.pos.Line + 1 → lex.pos.Line + 1 ≤ MaxInt →
      lex.NewLine.pos = lex.pos.NewLineInt64 ∧
      lex.NewLine.pos = { Line := lex.pos.Line + 1, Row := 1 }) ∧
    lex.NewLine.cursor = lex.cursor ∧
    lex.NewLine.in_ = lex.in_ ∧
    lex.NewLine.tokens = lex.tokens := by
  refine ⟨⟨fun h1 h2 => ?_, rfl, rfl⟩, ⟨fun h1 h2 => ?_, rfl⟩, rfl, by decide,
    ⟨fun h1 h2 => ?_, fun h1 h2 => ?_⟩, rfl, fun h1 h2 => ⟨?_, rfl⟩, rfl, rfl, rfl⟩
  · simp only [TokenPosition.StepInt64, wrapInt_of_range _ h1 h2]
  · simp only [TokenPosition.NewLineInt64, wrapInt_of_range _ h1 h2]
  · simp only [TokenPosition.Step, TokenPosition.StepInt64, wrapInt_of_range _ h1 h2]
  · simp only [TokenPosition.NewLine, TokenPosition.NewLineInt64, wrapInt_of_range _ h1 h2]
  · simp only [lexer.NewLine, TokenPosition.NewLine, TokenPosition.NewLineInt64,
      wrapInt_of_range _ h1 h2]

/-- C19: for every error `err` and position `pos`, `NewErrorToken(err, pos)` has
`Type()` equal to `TokenError`, which is 0, `String()` and `Error()` equal to the
message of `err`, `Position()` equal to `pos`, and `Unwrap()` equal to `err`. -/
theorem NewErrorToken_fields (err : GoError) (pos : TokenPosition) :
    (Token.error (NewErrorToken err pos)).Type = TokenError ∧
    TokenError = 0 ∧
    (Token.error (NewErrorToken err pos)).String = err.Error ∧
    (Token.error (NewErrorToken err pos)).Position = pos ∧
    (NewErrorToken err pos).Error = err.Error ∧
    (Token.error (NewErrorToken err pos)).Error = some err.Error ∧
    (NewErrorToken err pos).Unwrap = err ∧
    (Token.error (NewErrorToken err pos)).Unwrap = some err :=
  ⟨rfl, rfl, rfl, rfl, rfl, rfl, rfl, rfl⟩

theorem texts_append (a b : List Token) : texts (a ++ b) = texts a ++ texts b := by
  simp [texts]

theorem Op_run_text {α : Type} (sprintf : String → List α → String) (op : Op α)
    (lex lex1 : lexer) (hop : op.isStepOrEmit = true) (h : op.run sprintf lex = some lex1) :
    texts (if op.isEmit then lex1.tokens.getLast?.toList else []) ++ lex1.in_.Runes =
      lex.in_.Runes := by
  cases op with
  | Step n =>
    cases h
    simp [Op.isEmit, texts, lexer.Step]
  | Emit typ =>
    rcases Emit_some_cases lex lex1 typ h with ⟨_, _, h1⟩ | ⟨_, h1⟩
    · subst h1
      simp [Op.isEmit, texts, NewToken, Token.String, token.String, Feeder.Skip, Feeder.Runes]
    · subst h1
      simp [Op.isEmit, texts, NewToken, Token.String, token.String]
  | AtLeast n => simp [Op.isStepOrEmit] at hop
  | NewLine => simp [Op.isStepOrEmit] at hop
  | EmitError err => simp [Op.isStepOrEmit] at hop
  | EmitErrorf s args => simp [Op.isStepOrEmit] at hop
  | EmitSyntaxError s args => simp [Op.isStepOrEmit] at hop
  | Position => simp [Op.isStepOrEmit] at hop
  | Tokens => simp [Op.isStepOrEmit] at hop

theorem runOps_texts {α : Type} (sprintf : String → List α → String) (ops : List (Op α))
    (lex lex1 : lexer) (hops : ∀ op ∈ ops, op.isStepOrEmit = true)
    (h : runOps sprintf ops lex = some lex1) :
    texts (callTokens sprintf ops lex) ++ lex1.in_.Runes = lex.in_.Runes := by
  induction ops generalizing lex with
  | nil =>
    cases h
    simp [callTokens, texts]
  | cons op ops ih =>
    obtain ⟨lex2, h1, h2⟩ := runOps_cons sprintf op ops lex lex1 h
    have hrest := ih lex2 (fun o ho => hops o (List.mem_cons_of_mem _ ho)) h2
    have hone := Op_run_text sprintf op lex lex2 (hops op (List.mem_cons_self _ _)) h1
    rw [callTokens_cons sprintf op ops lex lex2 h1, texts_append, List.append_assoc, hrest, hone]

/-- C20: committing loses and repeats no input: over every feeder buffer `b`, after
every sequence of `Step` and `Emit` calls in which the cursor is at most the number
of runes left in the buffer at each `Emit`, the sequence has run to its end and the
texts of the tokens sent, in the order they were sent, followed by the runes left
in the buffer, are `b`; and for a single `Emit`, the text of its token followed by
the buffer after it is the buffer before it. -/
theorem commit_preserves_input {α : Type} (sprintf : String → List α → String)
    (ops : List (Op α)) (lex : lexer) (hops : ∀ op ∈ ops, op.isStepOrEmit = true)
    (hrange : cursorInRange sprintf ops lex = true) :
    (∃ lex1, runOps sprintf ops lex = some lex1 ∧
      lex1.tokens = lex.tokens ++ callTokens sprintf ops lex ∧
      texts (callTokens sprintf ops lex) ++ lex1.in_.Runes = lex.in_.Runes) ∧
    (∀ (l l1 : lexer) (t : TokenType), l.Emit t = some l1 →
      ∃ tok, l1.tokens = l.tokens ++ [tok] ∧
        tok.String.data ++ l1.in_.Runes = l.in_.Runes) := by
  obtain ⟨lex1, h⟩ := runOps_of_cursorInRange sprintf ops lex hrange
  refine ⟨⟨lex1, h, runOps_tokens sprintf ops lex lex1 h,
    runOps_texts sprintf ops lex lex1 hops h⟩, fun l l1 t hl => ?_⟩
  rcases Emit_some_cases l l1 t hl with ⟨_, _, h1⟩ | ⟨_, h1⟩
  · refine ⟨NewToken t (l.in_.Runes.take l.cursor.toNat) l.pos, by rw [h1], ?_⟩
    subst h1
    simp [NewToken, Token.String, token.String, Feeder.Skip, Feeder.Runes]
  · refine ⟨NewToken t [] l.pos, by rw [h1], ?_⟩
    subst h1
    simp [NewToken, Token.String, token.String]

theorem commit_preserves_input_witness :
    ((∀ op ∈ ([Op.Step 2, Op.Emit WORD, Op.Step 1, Op.Step 0, Op.Emit WORD, Op.Emit WORD,
        Op.Step 1, Op.Emit WORD] : List (Op Unit)), op.isStepOrEmit = true) ∧
      cursorInRange sprintfPlain
        [Op.Step 2, Op.Emit WORD, Op.Step 1, Op.Step 0, Op.Emit WORD, Op.Emit WORD,
          Op.Step 1, Op.Emit WORD] (freshOver "ab\ncd") = true) ∧
    texts (callTokens sprintfPlain
        [Op.Step 2, Op.Emit WORD, Op.Step 1, Op.Step 0, Op.Emit WORD, Op.Emit WORD,
          Op.Step 1, Op.Emit WORD] (freshOver "ab\ncd")) = ['a', 'b', '\n', 'c'] ∧
    (∃ lex1, runOps sprintfPlain
        [Op.Step 2, Op.Emit WORD, Op.Step 1, Op.Step 0, Op.Emit WORD, Op.Emit WORD,
          Op.Step 1, Op.Emit WORD] (freshOver "ab\ncd") = some lex1 ∧
      lex1.tokens = (freshOver "ab\ncd").tokens ++ callTokens sprintfPlain
        [Op.Step 2, Op.Emit WORD, Op.Step 1, Op.Step 0, Op.Emit WORD, Op.Emit WORD,
          Op.Step 1, Op.Emit WORD] (freshOver "ab\ncd") ∧
      texts (callTokens sprintfPlain
        [Op.Step 2, Op.Emit WORD, Op.Step 1, Op.Step 0, Op.Emit WORD, Op.Emit WORD,
          Op.Step 1, Op.Emit WORD] (freshOver "ab\ncd")) ++ lex1.in_.Runes =
        (freshOver "ab\ncd").in_.Runes) ∧
    (∀ (l l1 : lexer) (t : TokenType), l.Emit t = some l1 →
      ∃ tok, l1.tokens = l.tokens ++ [tok] ∧
        tok.String.data ++ l1.in_.Runes = l.in_.Runes) :=
  ⟨⟨by decide, by decide⟩, by decide,
    commit_preserves_input sprintfPlain _ (freshOver "ab\ncd") (by decide) (by decide)⟩

theorem Feeder_AtLeast_length (f : Feeder) (n : Int) :
    f.out.length ≤ (f.AtLeast n).2.out.length := by
  unfold Feeder.AtLeast
  simp only
  split <;> simp

theorem Op_run_of_disciplined {α : Type} (sprintf : String → List α → String) (op : Op α)
    (lex : lexer) (h0 : lex.cursorWithin = true) (h : op.disciplined lex = true) :
    ∃ lex1, op.run sprintf lex = some lex1 ∧ lex1.cursorWithin = true := by
  simp only [lexer.cursorWithin, decide_eq_true_eq] at h0
  cases op with
  | AtLeast n =>
    refine ⟨{ lex with in_ := (lex.in_.AtLeast (lex.cursor + max n 0)).2 }, ?_, ?_⟩
    · simp only [Op.run, AtLeast_of_nonneg lex n h0.1, Option.map_some']
    · have hlen := Feeder_AtLeast_length lex.in_ (lex.cursor + max n 0)
      simp only [lexer.cursorWithin, decide_eq_true_eq, Feeder.Runes] at h0 ⊢
      omega
  | Step n =>
    refine ⟨lex.Step n, rfl, ?_⟩
    simpa [Op.disciplined, lexer.cursorWithin, lexer.Step] using h
  | NewLine => exact ⟨lex.NewLine, rfl, by simpa [lexer.cursorWithin, lexer.NewLine] using h0⟩
  | Emit typ =>
    rcases eq_or_lt_of_le h0.1 with hz | hp
    · refine ⟨_, Emit_of_nonpos lex typ (le_of_eq hz.symm), ?_⟩
      simpa [lexer.cursorWithin] using h0
    · refine ⟨_, Emit_of_pos lex typ hp h0.2, ?_⟩
      simp [lexer.cursorWithin]
  | EmitError err =>
    cases err with
    | none => simp [Op.disciplined] at h
    | some e => exact ⟨_, rfl, by simpa [lexer.cursorWithin] using h0⟩
  | EmitErrorf s args =>
    exact ⟨lex.EmitErrorf sprintf s args, rfl,
      by simpa [lexer.cursorWithin, lexer.EmitErrorf] using h0⟩
  | EmitSyntaxError s args =>
    exact ⟨lex.EmitSyntaxError sprintf s args, rfl,
      by simpa [lexer.cursorWithin, lexer.EmitSyntaxError] using h0⟩
  | Position => exact ⟨lex, rfl, by simpa [lexer.cursorWithin] using h0⟩
  | Tokens => exact ⟨lex, rfl, by simpa [lexer.cursorWithin] using h0⟩

theorem runOps_of_disciplined {α : Type} (sprintf : String → List α → String)
    (ops : List (Op α)) (lex : lexer) (h0 : lex.cursorWithin = true)
    (h : disciplined sprintf ops lex = true) :
    ∃ lex1, runOps sprintf ops lex = some lex1 ∧ lex1.cursorWithin = true := by
  induction ops generalizing lex with
  | nil => exact ⟨lex, rfl, h0⟩
  | cons op ops ih =>
    simp only [disciplined, Bool.and_eq_true] at h
    obtain ⟨lex1, h1, hw⟩ := Op_run_of_disciplined sprintf op lex h0 h.1
    have h2 := h.2
    rw [h1] at h2
    obtain ⟨lex2, h3, hw2⟩ := ih lex1 hw h2
    exact ⟨lex2, by simp only [runOps, h1, Option.some_bind, h3], hw2⟩

/-- C11 (as stated, refuted): over the buffered input `"ab\ncd"`, `AtLeast(1)` after
`Step(-1)` panics on the slice `s[-1:]`, `Emit` after `Step(7)` panics on the slice
of the first 7 of 5 buffered runes, and `EmitError(nil)` panics in `err.Error()`. -/
theorem engine_panics_out_of_range :
    ((freshOver "ab\ncd").Step (-1)).AtLeast 1 = none ∧
    ((freshOver "ab\ncd").Step 7).Emit WORD = none ∧
    runOps sprintfPlain [Op.Step (-1), Op.AtLeast 1] (freshOver "ab\ncd") = none ∧
    runOps sprintfPlain [Op.Step 7, Op.Emit WORD] (freshOver "ab\ncd") = none ∧
    runOps sprintfPlain [Op.AtLeast 1, Op.EmitError none] (freshOver "ab\ncd") = none := by
  decide

/-- C11 (amended): for every content of the input, from every state whose cursor
lies within the runes the feeder has buffered, as the state of a new engine does,
every sequence of engine operations (`AtLeast`, `Step`, `NewLine`, `Emit`,
`EmitError`, `EmitErrorf`, `EmitSyntaxError`, `Position`, `Tokens`) in which each
`Step` leaves the cursor within the buffered runes and each `EmitError` is given an
error that is not nil runs to its end: no operation panics, and the cursor lies
within the buffered runes afterwards. -/
theorem engine_never_panics_in_range {α : Type} (sprintf : String → List α → String)
    (ops : List (Op α)) (lex : lexer) (h0 : lex.cursorWithin = true)
    (h : disciplined sprintf ops lex = true) :
    (∃ lex1, runOps sprintf ops lex = some lex1 ∧ lex1.cursorWithin = true) ∧
    (∀ (start : Option StateFn) (f : Feeder) (cap : Int) (e : Engine),
      NewLexer start f cap = some e → e.lex.cursorWithin = true) := by
  refine ⟨runOps_of_disciplined sprintf ops lex h0 h, ?_⟩
  intro start f cap e he
  unfold NewLexer at he
  split at he
  · cases he
  · cases he
    simp [lexer.cursorWithin]

theorem engine_never_panics_in_range_witness :
    (newOverAbCd.cursorWithin = true ∧
      disciplined sprintfPlain lookAheadScript newOverAbCd = true) ∧
    (∃ lex1, runOps sprintfPlain lookAheadScript newOverAbCd = some lex1 ∧
      lex1.cursorWithin = true) ∧
    (∀ (start : Option StateFn) (f : Feeder) (cap : Int) (e : Engine),
      NewLexer start f cap = some e → e.lex.cursorWithin = true) :=
  ⟨by decide,
    engine_never_panics_in_range sprintfPlain lookAheadScript newOverAbCd (by decide)
      (by decide)⟩

end Lexer
